import Mathlib

/-!
Indirect chip-and-chase target evaluation.

A shallow embedding of `ai/hl/stp/evaluation/indirect_chip.cpp` and of the parts of
`geom/angle.h` it relies on.

Conventions of the embedding.

* `double` is an arbitrary linearly ordered field `K` with a floor function (the rationals
  and the reals are instances), so arithmetic is exact; rounding, infinities and NaN are
  outside this part of the model.
* The normalisation and comparison of angles are embedded a second time in the namespace
  `Binary64`, where every operation is rounded to the nearest `double`; the statements
  about the values these functions return are made there.
* Library and repository code that is not part of the translated sources (`std::sqrt`,
  `M_PI`, `vertexAngle` of `geom/util.h`) is collected in the record `Geom` and taken as
  a parameter.
* Undefined behaviour and thrown exceptions are the `Except.error` outcomes of type
  `Fault`.
-/

namespace Evaluation

/-! ## Data model -/

/-- The ways in which the translated code can leave defined behaviour. -/
inductive Fault where
  /-- `operator[]` of a `std::vector` with an index that is not below its size. -/
  | indexOutOfRange
  /-- `std::optional::value()` called on an empty optional. -/
  | badOptionalAccess
  deriving DecidableEq, Repr

/-- `Point` of `geom/point.h`: a pair of coordinates. -/
structure Point (K : Type) where
  x : K
  y : K
  deriving DecidableEq, Repr

/-- `Triangle` of `geom/util.h`: an array of three points (`t[0]`, `t[1]`, `t[2]`). -/
structure Triangle (K : Type) where
  p0 : Point K
  p1 : Point K
  p2 : Point K
  deriving DecidableEq, Repr

/-- The helper `triangle(p1, p2, p3)` that builds the array of three points. -/
def triangle {K : Type} (p1 p2 p3 : Point K) : Triangle K := ⟨p1, p2, p3⟩

/-- `Angle` of `geom/angle.h`: a wrapped number of radians. -/
structure Angle (K : Type) where
  rads : K
  deriving DecidableEq, Repr

/-- The part of `Field` that the evaluation reads. -/
structure Field (K : Type) where
  enemyGoal : Point K
  enemyCornerNeg : Point K
  enemyCornerPos : Point K

/-- Primitives used by the translated code whose definitions are outside the translated
sources: `std::sqrt`, the constant `M_PI`, and `vertexAngle` of `geom/util.h`. -/
structure Geom (K : Type) where
  sqrt : K → K
  pi : K
  vertexAngle : Point K → Point K → Point K → Angle K

/-- The dynamic parameters `Evaluation::Indirect_Chip::*` read by the evaluation. -/
structure Config (K : Type) where
  min_chip_tri_area : K
  min_chip_tri_edge_len : K
  chip_cherry_power_downscale : K
  max_chip_power : K
  chip_target_area_inset : K

/-! ## Points -/

/-- Modelled from the spec: `operator+` of `geom/point.h`, which is not among the
translated sources: the componentwise sum of two points. -/
instance {K : Type} [Add K] : Add (Point K) := ⟨fun a b => Point.mk (a.x + b.x) (a.y + b.y)⟩

/-- Modelled from the spec: `operator-` of `geom/point.h`, which is not among the
translated sources: the componentwise difference of two points. -/
instance {K : Type} [Sub K] : Sub (Point K) := ⟨fun a b => Point.mk (a.x - b.x) (a.y - b.y)⟩

/-- Modelled from the spec: `Point::len` of `geom/point.h`, which is not among the
translated sources: the Euclidean length of the vector, through the square root of
`Geom`. -/
def Point.len {K : Type} [LinearOrderedField K] (G : Geom K) (p : Point K) : K :=
  G.sqrt (p.x * p.x + p.y * p.y)

/-- Modelled from the spec: `Point::norm(l)` of `geom/point.h`, which is not among the
translated sources: the vector rescaled to length `l`, and the zero vector for an input of
length zero. -/
def Point.norm {K : Type} [LinearOrderedField K] (G : Geom K) (p : Point K) (l : K) :
    Point K :=
  if p.len G = 0 then Point.mk 0 0
  else Point.mk (p.x * l / p.len G) (p.y * l / p.len G)

/-! ## Angles (`geom/angle.h`) -/

/-- `Angle::ofRadians`. -/
def Angle.ofRadians {K : Type} (rad : K) : Angle K := Angle.mk rad

/-- `Angle::toRadians`: the stored number of radians. -/
def Angle.toRadians {K : Type} (a : Angle K) : K := a.rads

/-- `Angle::toDegrees`: `rads / M_PI * 180.0`. -/
def Angle.toDegrees {K : Type} [LinearOrderedField K] (G : Geom K) (a : Angle K) : K :=
  a.rads / G.pi * 180

/-- `Angle::full`: the angle of `2.0 * M_PI` radians. -/
def Angle.full {K : Type} [LinearOrderedField K] (G : Geom K) : Angle K :=
  Angle.mk (2 * G.pi)

/-- `static_cast<long>` of a `double`: truncation toward zero. The conversion is defined
in C++ only for values within the range of `long`; this exact model truncates every
value, and `Binary64.castLong` below keeps the range. -/
def castLong {K : Type} [LinearOrderedField K] [FloorRing K] (v : K) : Int :=
  if 0 ≤ v then Int.floor v else Int.ceil v

/-- `Angle::remainder`: subtracts from the angle the multiple of the divisor nearest to
it, the quotient being rounded by adding or subtracting one half and truncating. The
arithmetic is exact here; `Binary64.remainder` below rounds every operation. -/
def Angle.remainder {K : Type} [LinearOrderedField K] [FloorRing K] (a divisor : Angle K) :
    Angle K :=
  Angle.ofRadians (a.toRadians -
    ((castLong (if a.toRadians / divisor.toRadians ≥ 0
        then a.toRadians / divisor.toRadians + 1 / 2
        else a.toRadians / divisor.toRadians - 1 / 2) : Int) : K) * divisor.toRadians)

/-- `Angle::abs`. -/
def Angle.abs {K : Type} [LinearOrderedField K] (a : Angle K) : Angle K :=
  Angle.ofRadians (if a.toRadians < 0 then -a.toRadians else a.toRadians)

/-- `Angle::angleMod`: `remainder(Angle::full())`. -/
def Angle.angleMod {K : Type} [LinearOrderedField K] [FloorRing K] (G : Geom K)
    (a : Angle K) : Angle K :=
  a.remainder (Angle.full G)

/-! ## Control-flow helpers -/

/-- `v[i]` on a `std::vector`: defined only for an index below the size. -/
def vectorAt {α : Type} (v : List α) (i : Nat) : Except Fault α :=
  match v[i]? with
  | some a => Except.ok a
  | none => Except.error Fault.indexOutOfRange

/-- Subtraction of `size_t` values: the result wraps around modulo `2 ^ 64`. -/
def sizeSub (a b : Nat) : Nat := (a + 2 ^ 64 - b % 2 ^ 64) % 2 ^ 64

/-- The loop `for (i = lo; ...; i++) body`, run for `n` iterations starting at `lo`,
threading the loop state `s` and stopping at the first fault. -/
def iterate {σ : Type} (body : Nat → σ → Except Fault σ) : Nat → Nat → σ → Except Fault σ
  | _, 0, s => Except.ok s
  | lo, n + 1, s =>
    match body lo s with
    | Except.ok s1 => iterate body (lo + 1) n s1
    | Except.error e => Except.error e

/-- The loop `for (unsigned int i = lo; i < hi; i++) body`: it runs `hi - lo` times when
`lo < hi` and not at all otherwise. The counter is a natural number (vector sizes are far
below `2 ^ 32`, where the counter would wrap). -/
def forLoop {σ : Type} (lo hi : Nat) (body : Nat → σ → Except Fault σ) (s : σ) :
    Except Fault σ :=
  iterate body lo (hi - lo) s

/-! ## `getAllTrianglesBetweenEnemyPlayers` -/

/-- The vector `allPts`: the enemy positions followed by the four pushed boundary
points. -/
def allPoints {K : Type} [Zero K] (field : Field K) (enemy_players : List (Point K)) :
    List (Point K) :=
  (((enemy_players ++ [field.enemyCornerNeg]) ++ [field.enemyCornerPos]) ++
    [Point.mk 0 field.enemyCornerPos.y]) ++ [Point.mk 0 field.enemyCornerNeg.y]

/-- `Evaluation::getAllTrianglesBetweenEnemyPlayers`: the three nested index loops over
`allPts`, pushing one triangle per visited index triple. -/
def getAllTrianglesBetweenEnemyPlayers {K : Type} [Zero K] (field : Field K)
    (enemy_players : List (Point K)) : Except Fault (List (Triangle K)) :=
  let allPts := allPoints field enemy_players
  forLoop 0 (sizeSub allPts.length 2) (fun i triangles =>
    forLoop (i + 1) (sizeSub allPts.length 1) (fun j triangles =>
      forLoop (j + 1) allPts.length (fun k triangles =>
        match vectorAt allPts i, vectorAt allPts j, vectorAt allPts k with
        | Except.ok p1, Except.ok p2, Except.ok p3 =>
          Except.ok (triangles ++ [triangle p1 p2 p3])
        | Except.error e, _, _ => Except.error e
        | _, Except.error e, _ => Except.error e
        | _, _, Except.error e => Except.error e) triangles) triangles) []

/-! ## Triangle centre and area -/

/-- `Evaluation::getTriangleCenter`: the mean of the three vertices. -/
def getTriangleCenter {K : Type} [LinearOrderedField K] (triangle : Triangle K) : Point K :=
  let p1 := triangle.p0
  let p2 := triangle.p1
  let p3 := triangle.p2
  let center_x := (p1.x + p2.x + p3.x) / 3
  let center_y := (p1.y + p2.y + p3.y) / 3
  Point.mk center_x center_y

/-- `Evaluation::getTriangleArea`: the absolute value of half the cross product of two
edge vectors (`abs` is taken as the floating-point absolute value). -/
def getTriangleArea {K : Type} [LinearOrderedField K] (triangle : Triangle K) : K :=
  let p1 := triangle.p0
  let p2 := triangle.p1
  let p3 := triangle.p2
  |1 / 2 * ((p2.x - p1.x) * (p3.y - p1.y) - (p3.x - p1.x) * (p2.y - p1.y))|

/-! ## `getLargestValidTriangle` -/

/-- The threshold part of the test in the loop of `getLargestValidTriangle`: the area is
at least `min_area`, the three edge lengths are at least `min_edge_len` and the three
vertex angles, in degrees, are at least `min_edge_angle`. -/
def IsValidTriangle {K : Type} [LinearOrderedField K] [FloorRing K] (G : Geom K)
    (min_area min_edge_len min_edge_angle : K) (t : Triangle K) : Prop :=
  getTriangleArea t ≥ min_area ∧
  (t.p1 - t.p0).len G ≥ min_edge_len ∧
  (t.p2 - t.p0).len G ≥ min_edge_len ∧
  (t.p2 - t.p1).len G ≥ min_edge_len ∧
  (((G.vertexAngle t.p1 t.p0 t.p2).angleMod G).abs).toDegrees G ≥ min_edge_angle ∧
  (((G.vertexAngle t.p0 t.p1 t.p2).angleMod G).abs).toDegrees G ≥ min_edge_angle ∧
  (((G.vertexAngle t.p0 t.p2 t.p1).angleMod G).abs).toDegrees G ≥ min_edge_angle

instance {K : Type} [LinearOrderedField K] [FloorRing K] (G : Geom K)
    (min_area min_edge_len min_edge_angle : K) (t : Triangle K) :
    Decidable (IsValidTriangle G min_area min_edge_len min_edge_angle t) := by
  unfold IsValidTriangle
  infer_instance

/-- One pass of the body of the loop of `getLargestValidTriangle` on triangle `t`, from
the state `(largest, largest_area)`. -/
def largestStep {K : Type} [LinearOrderedField K] [FloorRing K] (G : Geom K)
    (min_area min_edge_len min_edge_angle : K) (s : Triangle K × K) (t : Triangle K) :
    Triangle K × K :=
  let area := getTriangleArea t
  let l1 := (t.p1 - t.p0).len G
  let l2 := (t.p2 - t.p0).len G
  let l3 := (t.p2 - t.p1).len G
  let a1 := ((G.vertexAngle t.p1 t.p0 t.p2).angleMod G).abs
  let a2 := ((G.vertexAngle t.p0 t.p1 t.p2).angleMod G).abs
  let a3 := ((G.vertexAngle t.p0 t.p2 t.p1).angleMod G).abs
  if area ≥ s.2 ∧ area ≥ min_area ∧ l1 ≥ min_edge_len ∧ l2 ≥ min_edge_len ∧
      l3 ≥ min_edge_len ∧ a1.toDegrees G ≥ min_edge_angle ∧
      a2.toDegrees G ≥ min_edge_angle ∧ a3.toDegrees G ≥ min_edge_angle
  then (t, area)
  else s

/-- `Evaluation::getLargestValidTriangle`. The running best is seeded with
`allTriangles[0]` before the loop, the loop visits every index, and the running best is
returned wrapped in an optional. (`min_edge_angle` has a default in the header; callers
that omit it are modelled as passing `0`.) -/
def getLargestValidTriangle {K : Type} [LinearOrderedField K] [FloorRing K] (G : Geom K)
    (allTriangles : List (Triangle K)) (min_area min_edge_len min_edge_angle : K) :
    Except Fault (Option (Triangle K)) :=
  (vectorAt allTriangles 0).bind fun largest =>
    let largest_area := getTriangleArea largest
    (forLoop 0 allTriangles.length (fun i s =>
        (vectorAt allTriangles i).map fun t =>
          largestStep G min_area min_edge_len min_edge_angle s t)
      (largest, largest_area)).map fun s => some s.1

/-! ## `findTargetPointForIndirectChipAndChase` -/

/-- `Evaluation::findTargetPointForIndirectChipAndChase(triangles, ball_position)`, with
the dynamic parameters passed as `cfg`. -/
def findTargetPointForIndirectChipAndChase {K : Type} [LinearOrderedField K] [FloorRing K]
    (G : Geom K) (cfg : Config K) (triangles : List (Triangle K)) (ball_position : Point K) :
    Except Fault (Option (Point K)) :=
  if ¬ triangles.isEmpty then
    match getLargestValidTriangle G triangles cfg.min_chip_tri_area
        cfg.min_chip_tri_edge_len 0 with
    | Except.error e => Except.error e
    | Except.ok none => Except.error Fault.badOptionalAccess
    | Except.ok (some t) =>
      let target := getTriangleCenter t
      let target := target.norm G
        ((target - ball_position).len G * cfg.chip_cherry_power_downscale)
      let target :=
        if (target - ball_position).len G > cfg.max_chip_power
        then ball_position + (target - ball_position).norm G cfg.max_chip_power
        else target
      Except.ok (some target)
  else
    Except.ok none

/-! ## More of `geom/angle.h` -/

/-- `Angle::EPSILON`, the tolerance `1e-15` of `operator==`. -/
def Angle.EPSILON {K : Type} [LinearOrderedField K] : K := 1 / 10 ^ 15

/-- `operator-(Angle x, Angle y)`: the difference of the radians. -/
instance {K : Type} [Sub K] : Sub (Angle K) :=
  ⟨fun x y => Angle.ofRadians (x.toRadians - y.toRadians)⟩

/-- `operator+(Angle x, Angle y)`: the sum of the radians. -/
instance {K : Type} [Add K] : Add (Angle K) :=
  ⟨fun x y => Angle.ofRadians (x.toRadians + y.toRadians)⟩

/-- `Angle::clamp`: `remainder(Angle::full())`. -/
def Angle.clamp {K : Type} [LinearOrderedField K] [FloorRing K] (G : Geom K)
    (a : Angle K) : Angle K :=
  a.remainder (Angle.full G)

/-- `Angle::minDiff`: `(*this - other).clamp().abs()`. -/
def Angle.minDiff {K : Type} [LinearOrderedField K] [FloorRing K] (G : Geom K)
    (a other : Angle K) : Angle K :=
  ((a - other).clamp G).abs

/-- `operator==(Angle x, Angle y)`: the minimal difference of the two angles, both taken
through `angleMod`, is at most `EPSILON`. The arithmetic is exact here;
`Binary64.operatorEq` below rounds every operation. -/
def Angle.operatorEq {K : Type} [LinearOrderedField K] [FloorRing K] (G : Geom K)
    (x y : Angle K) : Bool :=
  let diff := (x.angleMod G).minDiff G (y.angleMod G)
  decide (diff.toRadians ≤ Angle.EPSILON)

/-- `operator!=(Angle x, Angle y)`: the stored radians differ. -/
def Angle.operatorNe {K : Type} [LinearOrderedField K] (x y : Angle K) : Bool :=
  decide (x.toRadians ≠ y.toRadians)

/-! ## `findOpenTriangles` -/

/-- Primitives of `findOpenTriangles` whose definitions are outside the translated
sources: `contains(Triangle, Point)` of `geom/util.h` and the constant
`ROBOT_MAX_RADIUS_METERS` of `shared/constants.h`. -/
structure Shared (K : Type) where
  contains : Triangle K → Point K → Bool
  ROBOT_MAX_RADIUS_METERS : K

/-- A loop like `iterate` whose body can leave the loop with `break`: the body returns the
new state and whether it broke out. -/
def iterateBreak {σ : Type} (body : Nat → σ → Except Fault (σ × Bool)) :
    Nat → Nat → σ → Except Fault σ
  | _, 0, s => Except.ok s
  | lo, n + 1, s =>
    match body lo s with
    | Except.ok (s1, true) => Except.ok s1
    | Except.ok (s1, false) => iterateBreak body (lo + 1) n s1
    | Except.error e => Except.error e

/-- The loop `for (unsigned int i = lo; i < hi; i++) body` with a body that can
`break`. -/
def forLoopBreak {σ : Type} (lo hi : Nat) (body : Nat → σ → Except Fault (σ × Bool))
    (s : σ) : Except Fault σ :=
  iterateBreak body lo (hi - lo) s

/-- `Evaluation::findOpenTriangles`: for every triangle the three vertices are moved
toward the centre, the enemy positions are scanned until one is contained in the adjusted
triangle, and the original triangle is pushed when none is. -/
def findOpenTriangles {K : Type} [LinearOrderedField K] (G : Geom K) (U : Shared K)
    (triangles : List (Triangle K)) (enemy_players : List (Point K)) :
    Except Fault (List (Triangle K)) :=
  forLoop 0 triangles.length (fun i filtered_triangles =>
    (vectorAt triangles i).bind fun ti =>
      let p1 := ti.p0 +
        ((getTriangleCenter ti) - ti.p0).norm G (5 / 2 * U.ROBOT_MAX_RADIUS_METERS)
      let p2 := ti.p1 +
        ((getTriangleCenter ti) - ti.p1).norm G (5 / 2 * U.ROBOT_MAX_RADIUS_METERS)
      let p3 := ti.p2 +
        ((getTriangleCenter ti) - ti.p2).norm G (5 / 2 * U.ROBOT_MAX_RADIUS_METERS)
      let t := triangle p1 p2 p3
      (forLoopBreak 0 enemy_players.length (fun k (containsEnemy : Bool) =>
          (vectorAt enemy_players k).map fun e =>
            if U.contains t e then (true, true) else (containsEnemy, false))
        false).map fun (containsEnemy : Bool) =>
          if !containsEnemy then filtered_triangles ++ [ti] else filtered_triangles) []

/-! ## The world, and `remove_outofbounds_triangles` -/

/-- The part of `Ball` that the evaluation reads. -/
structure Ball (K : Type) where
  position : Point K

/-- The part of `Robot` that the evaluation reads; two robots are equal when their ids and
positions are. -/
structure Robot (K : Type) where
  id : Nat
  position : Point K
  deriving DecidableEq

/-- The part of `Team` that the evaluation reads: the robots, in the order of
`getAllRobots`, and the optional goalie. -/
structure Team (K : Type) where
  getAllRobots : List (Robot K)
  goalie : Option (Robot K)

/-- The part of `World` that the evaluation reads. -/
structure World (K : Type) where
  field : Field K
  ball : Ball K
  enemyTeam : Team K

/-- `Evaluation::findBestChipTargetArea`: the four corners of the target rectangle. -/
def findBestChipTargetArea {K : Type} [LinearOrderedField K] (world : World K) (inset : K) :
    List (Point K) :=
  let ballX := world.ball.position.x
  let fieldX := world.field.enemyGoal.x - inset
  let negFieldY := world.field.enemyCornerNeg.y + inset
  let posFieldY := world.field.enemyCornerPos.y - inset
  [Point.mk ballX negFieldY, Point.mk ballX posFieldY, Point.mk fieldX negFieldY,
    Point.mk fieldX posFieldY]

/-- The four running extremes of the first loop of `remove_outofbounds_triangles`. -/
structure Extremes (K : Type) where
  smallest_x : K
  smallest_y : K
  largest_x : K
  largest_y : K

/-- One pass of the body of the first loop of `remove_outofbounds_triangles` on the
corner `p`. -/
def extremesStep {K : Type} [LinearOrderedField K] (s : Extremes K) (p : Point K) :
    Extremes K :=
  let smallest_x := if p.x < s.smallest_x then p.x else s.smallest_x
  let largest_x := if p.x > s.largest_x then p.x else s.largest_x
  let smallest_y := if p.y < s.smallest_y then p.y else s.smallest_y
  let largest_y := if p.y > s.largest_y then p.y else s.largest_y
  Extremes.mk smallest_x smallest_y largest_x largest_y

/-- `Evaluation::remove_outofbounds_triangles`, with the inset read from `cfg`: the
extremes of the corners of the target area are computed, and the triangles whose centre
lies between them are pushed. -/
def remove_outofbounds_triangles {K : Type} [LinearOrderedField K] (cfg : Config K)
    (world : World K) (triangles : List (Triangle K)) : Except Fault (List (Triangle K)) :=
  let chip_area_corners := findBestChipTargetArea world cfg.chip_target_area_inset
  (vectorAt chip_area_corners 0).bind fun c0 =>
    (forLoop 0 chip_area_corners.length (fun i s =>
        (vectorAt chip_area_corners i).map fun p => extremesStep s p)
      (Extremes.mk c0.x c0.y c0.x c0.y)).bind fun s =>
      forLoop 0 triangles.length (fun i valid_triangles =>
        (vectorAt triangles i).map fun t =>
          let center := getTriangleCenter t
          if center.x ≤ s.largest_x ∧ center.x ≥ s.smallest_x ∧
              center.y ≤ s.largest_y ∧ center.y ≥ s.smallest_y
          then valid_triangles ++ [t]
          else valid_triangles) []

/-! ## The whole evaluation -/

/-- `Evaluation::findTargetPointForIndirectChipAndChase(world)`: the positions of all
enemies and of the enemies other than the goalie are collected, and the four stages are
run in turn. -/
def findTargetPointForIndirectChipAndChaseWorld {K : Type} [LinearOrderedField K]
    [FloorRing K] (G : Geom K) (U : Shared K) (cfg : Config K) (world : World K) :
    Except Fault (Option (Point K)) :=
  let enemy_goalie_opt := world.enemyTeam.goalie
  let positions := world.enemyTeam.getAllRobots.foldl (fun acc i =>
    let all_enemy_positions := acc.2 ++ [i.position]
    if some i ≠ enemy_goalie_opt then (acc.1 ++ [i.position], all_enemy_positions)
    else (acc.1, all_enemy_positions)) (([] : List (Point K)), ([] : List (Point K)))
  let non_goalie_enemy_positions := positions.1
  let all_enemy_positions := positions.2
  (getAllTrianglesBetweenEnemyPlayers world.field non_goalie_enemy_positions).bind
    fun allTriangles =>
      (findOpenTriangles G U allTriangles all_enemy_positions).bind fun target_triangles =>
        (remove_outofbounds_triangles cfg world target_triangles).bind
          fun target_triangles =>
            findTargetPointForIndirectChipAndChase G cfg target_triangles
              world.ball.position

/-! ## `geom/angle.h` in double precision

The normalisation and comparison of angles once more, with the arithmetic of `double`:
every operation of the source returns the exact result rounded to the nearest double
(IEEE 754 binary64, ties to even, no fused multiply-add). A finite double is the rational
number it denotes; infinities and NaN are not values of the model, and a conversion to
`long` that C++ leaves undefined yields `none`. -/

namespace Binary64

/-- The position of the leading binary digit of `n`: `ilog2 n n` is the exponent of the
largest power of two that is at most `n` (and `0` for `n = 0`). The first argument bounds
the number of halvings. -/
def ilog2 : Nat → Nat → Nat
  | 0, _ => 0
  | fuel + 1, n => if n < 2 then 0 else ilog2 fuel (n / 2) + 1

/-- The binary exponent of a positive rational `a`: the integer `e` with
`2 ^ e ≤ a < 2 ^ (e + 1)`. -/
def binade (a : ℚ) : Int :=
  if (2 : ℚ) ^ ((ilog2 a.num.natAbs a.num.natAbs : Int) - (ilog2 a.den a.den : Int)) ≤ a
  then (ilog2 a.num.natAbs a.num.natAbs : Int) - (ilog2 a.den a.den : Int)
  else (ilog2 a.num.natAbs a.num.natAbs : Int) - (ilog2 a.den a.den : Int) - 1

/-- The spacing of the doubles around a positive rational `a`: `2 ^ (e - 52)` for the
binary exponent `e` of `a`, and `2 ^ (-1074)` below `2 ^ (-1022)`, where the subnormal
numbers begin. -/
def ulp (a : ℚ) : ℚ := (2 : ℚ) ^ (max (binade a) (-1022) - 52)

/-- The integer nearest to `m`, a tie going to the even one. -/
def roundInt (m : ℚ) : Int :=
  if m - (Int.floor m : ℚ) < 1 / 2 then Int.floor m
  else if 1 / 2 < m - (Int.floor m : ℚ) then Int.floor m + 1
  else if Int.floor m % 2 = 0 then Int.floor m else Int.floor m + 1

/-- The double nearest to a positive rational `a`: the multiple of the spacing nearest to
it. -/
def roundMagnitude (a : ℚ) : ℚ := (roundInt (a / ulp a) : ℚ) * ulp a

/-- Rounding of an exact result to `double` (IEEE 754 binary64, round to nearest, ties to
even). A finite double is the rational it denotes, and the two zeros are one value.
Overflow to infinity is not represented: an angle whose quotient by `2π` converts to
`long` is below `2 ^ 70`, so the operations of `remainder` stay far from the largest
double. -/
def roundNearestEven (q : ℚ) : ℚ :=
  if q = 0 then 0
  else if q < 0 then -roundMagnitude (-q)
  else roundMagnitude q

/-- The constant `M_PI` of `<cmath>`, the literal `3.14159265358979323846` as a
`double`. -/
def M_PI : ℚ := roundNearestEven (314159265358979323846 / 100000000000000000000)

/-- `Angle::EPSILON`, the literal `1e-15` as a `double`. -/
def EPSILON : ℚ := roundNearestEven (1 / 10 ^ 15)

/-- `static_cast<long>` of a `double`: truncation toward zero, defined only when the
truncated value is a 64-bit `long`. -/
def castLong (v : ℚ) : Option Int :=
  if -(2 : ℚ) ^ 63 - 1 < v ∧ v < 2 ^ 63
  then some (if 0 ≤ v then Int.floor v else Int.ceil v)
  else none

/-- `static_cast<double>` of a `long`. -/
def castDouble (n : Int) : ℚ := roundNearestEven (n : ℚ)

/-- `Angle::full` in `double`: `2.0 * M_PI`. -/
def full : Angle ℚ := Angle.ofRadians (roundNearestEven (2 * M_PI))

/-- `operator-(Angle x, Angle y)` in `double`. -/
def operatorSub (x y : Angle ℚ) : Angle ℚ :=
  Angle.ofRadians (roundNearestEven (x.toRadians - y.toRadians))

/-- `Angle::remainder` in `double`, every operation rounded in the order of the source:
the quotient, the quotient plus or minus `0.5`, the conversions to `long` and back, the
product with the divisor and the final difference. The result is absent when the
conversion to `long` is undefined, which includes the division by a zero divisor. -/
def remainder (a divisor : Angle ℚ) : Option (Angle ℚ) :=
  if divisor.toRadians = 0 then none
  else
    (castLong (if roundNearestEven (a.toRadians / divisor.toRadians) ≥ 0
        then roundNearestEven (roundNearestEven (a.toRadians / divisor.toRadians) + 1 / 2)
        else roundNearestEven
          (roundNearestEven (a.toRadians / divisor.toRadians) - 1 / 2))).map
      fun n => Angle.ofRadians (roundNearestEven (a.toRadians -
        roundNearestEven (castDouble n * divisor.toRadians)))

/-- `Angle::clamp` in `double`: `remainder(Angle::full())`. -/
def clamp (a : Angle ℚ) : Option (Angle ℚ) := remainder a full

/-- `Angle::angleMod` in `double`: `remainder(Angle::full())`. -/
def angleMod (a : Angle ℚ) : Option (Angle ℚ) := remainder a full

/-- `Angle::minDiff` in `double`: `(*this - other).clamp().abs()`. -/
def minDiff (a other : Angle ℚ) : Option (Angle ℚ) :=
  (clamp (operatorSub a other)).map Angle.abs

/-- `operator==(Angle x, Angle y)` in `double`. -/
def operatorEq (x y : Angle ℚ) : Option Bool :=
  (angleMod x).bind fun ax => (angleMod y).bind fun ay =>
    (minDiff ax ay).map fun diff => decide (diff.toRadians ≤ EPSILON)

end Binary64

/-! ## Vocabulary of the statements -/

/-- The index triples `(i, j, k)` in the order in which the three nested loops over a
vector of size `n` visit them. -/
def indexTriples (n : Nat) : List (Nat × Nat × Nat) :=
  (List.range' 0 (n - 2)).flatMap fun i =>
    (List.range' (i + 1) (n - 1 - (i + 1))).flatMap fun j =>
      (List.range' (j + 1) (n - (j + 1))).map fun k => (i, j, k)

/-- Lexicographic order on index triples. -/
def lexLT (a b : Nat × Nat × Nat) : Prop :=
  a.1 < b.1 ∨ (a.1 = b.1 ∧ (a.2.1 < b.2.1 ∨ (a.2.1 = b.2.1 ∧ a.2.2 < b.2.2)))

/-- Triangle `t` is built from the points of `S` at the indices `ijk`, in that order. -/
def TriangleAt {K : Type} (S : List (Point K)) (t : Triangle K) (ijk : Nat × Nat × Nat) :
    Prop :=
  S[ijk.1]? = some t.p0 ∧ S[ijk.2.1]? = some t.p1 ∧ S[ijk.2.2]? = some t.p2

/-- The copy of a triangle with each vertex moved by `2.5 * ROBOT_MAX_RADIUS_METERS`
toward the centre of the triangle. -/
def shrunkTriangle {K : Type} [LinearOrderedField K] (G : Geom K) (U : Shared K)
    (t : Triangle K) : Triangle K :=
  Triangle.mk
    (t.p0 + (getTriangleCenter t - t.p0).norm G (5 / 2 * U.ROBOT_MAX_RADIUS_METERS))
    (t.p1 + (getTriangleCenter t - t.p1).norm G (5 / 2 * U.ROBOT_MAX_RADIUS_METERS))
    (t.p2 + (getTriangleCenter t - t.p2).norm G (5 / 2 * U.ROBOT_MAX_RADIUS_METERS))

/-- The vertex `t[i]` of a triangle. -/
def Triangle.vertex {K : Type} (t : Triangle K) (i : Fin 3) : Point K :=
  match i with
  | 0 => t.p0
  | 1 => t.p1
  | 2 => t.p2

/-- The point `p` belongs to the closed triangle `t`: it is a combination of the three
vertices with non-negative weights of sum `1`. -/
def InClosedTriangle {K : Type} [LinearOrderedField K] (t : Triangle K) (p : Point K) :
    Prop :=
  ∃ a b c : K, 0 ≤ a ∧ 0 ≤ b ∧ 0 ≤ c ∧ a + b + c = 1 ∧
    p.x = a * t.p0.x + b * t.p1.x + c * t.p2.x ∧
    p.y = a * t.p0.y + b * t.p1.y + c * t.p2.y

/-! # Theorems -/

/-! ## The triple loop -/

theorem sizeSub_of_le {a b : Nat} (hb : b ≤ a) (ha : a < 2 ^ 64) : sizeSub a b = a - b := by
  unfold sizeSub
  have hb2 : b % 2 ^ 64 = b := Nat.mod_eq_of_lt (lt_of_le_of_lt hb ha)
  rw [hb2]
  have : a + 2 ^ 64 - b = (a - b) + 2 ^ 64 := by omega
  rw [this, Nat.add_mod_right]
  exact Nat.mod_eq_of_lt (by omega)

theorem iterate_append {τ ι : Type} (R : τ → ι → Prop)
    (body : Nat → List τ → Except Fault (List τ)) (f : Nat → List ι) :
    ∀ (n lo : Nat),
      (∀ i, lo ≤ i → i < lo + n → ∀ s, ∃ out, body i s = Except.ok (s ++ out) ∧
        List.Forall₂ R out (f i)) →
      ∀ s, ∃ out, iterate body lo n s = Except.ok (s ++ out) ∧
        List.Forall₂ R out ((List.range' lo n).flatMap f) := by
  intro n
  induction n with
  | zero =>
    intro lo _ s
    exact ⟨[], by simp [iterate], by simp⟩
  | succ n ih =>
    intro lo hbody s
    obtain ⟨o1, h1, r1⟩ := hbody lo (le_refl _) (by omega) s
    obtain ⟨o2, h2, r2⟩ := ih (lo + 1) (fun i hi1 hi2 => hbody i (by omega) (by omega)) (s ++ o1)
    refine ⟨o1 ++ o2, ?_, ?_⟩
    · simp only [iterate, h1, h2, List.append_assoc]
    · rw [List.range'_succ, List.flatMap_cons]
      exact List.rel_append r1 r2

theorem vectorAt_of_lt {α : Type} (v : List α) (i : Nat) (h : i < v.length) :
    ∃ a, vectorAt v i = Except.ok a ∧ v[i]? = some a := by
  refine ⟨v[i], ?_, ?_⟩
  · simp [vectorAt, List.getElem?_eq_getElem h]
  · exact List.getElem?_eq_getElem h

theorem tripleLoop_spec {K : Type} (S : List (Point K)) (hlen : 4 ≤ S.length)
    (hsize : S.length < 2 ^ 64) :
    ∃ out, forLoop 0 (sizeSub S.length 2) (fun i triangles =>
      forLoop (i + 1) (sizeSub S.length 1) (fun j triangles =>
        forLoop (j + 1) S.length (fun k triangles =>
          match vectorAt S i, vectorAt S j, vectorAt S k with
          | Except.ok p1, Except.ok p2, Except.ok p3 =>
            Except.ok (triangles ++ [triangle p1 p2 p3])
          | Except.error e, _, _ => Except.error e
          | _, Except.error e, _ => Except.error e
          | _, _, Except.error e => Except.error e) triangles) triangles) [] = Except.ok out ∧
      List.Forall₂ (TriangleAt S) out (indexTriples S.length) := by
  rw [sizeSub_of_le (by omega) hsize, sizeSub_of_le (by omega) hsize]
  unfold forLoop
  have key := iterate_append (TriangleAt S) (fun i triangles =>
      iterate (fun j triangles =>
        iterate (fun k triangles =>
          match vectorAt S i, vectorAt S j, vectorAt S k with
          | Except.ok p1, Except.ok p2, Except.ok p3 =>
            Except.ok (triangles ++ [triangle p1 p2 p3])
          | Except.error e, _, _ => Except.error e
          | _, Except.error e, _ => Except.error e
          | _, _, Except.error e => Except.error e) (j + 1) (S.length - (j + 1)) triangles)
        (i + 1) (S.length - 1 - (i + 1)) triangles)
    (fun i => (List.range' (i + 1) (S.length - 1 - (i + 1))).flatMap fun j =>
      (List.range' (j + 1) (S.length - (j + 1))).map fun k => (i, j, k))
    (S.length - 2 - 0) 0 ?_ []
  · simpa [indexTriples] using key
  · intro i _ hi s
    apply iterate_append (TriangleAt S) _
      (fun j => (List.range' (j + 1) (S.length - (j + 1))).map fun k => (i, j, k))
    intro j hj1 hj2 s
    have := iterate_append (TriangleAt S) (fun k triangles =>
          match vectorAt S i, vectorAt S j, vectorAt S k with
          | Except.ok p1, Except.ok p2, Except.ok p3 =>
            Except.ok (triangles ++ [triangle p1 p2 p3])
          | Except.error e, _, _ => Except.error e
          | _, Except.error e, _ => Except.error e
          | _, _, Except.error e => Except.error e) (fun k => [(i, j, k)])
      (S.length - (j + 1)) (j + 1) ?_ s
    · rw [List.map_eq_flatMap]
      exact this
    · intro k hk1 hk2 s
      obtain ⟨a, ha, ha2⟩ := vectorAt_of_lt S i (by omega)
      obtain ⟨b, hb, hb2⟩ := vectorAt_of_lt S j (by omega)
      obtain ⟨c, hc, hc2⟩ := vectorAt_of_lt S k (by omega)
      refine ⟨[triangle a b c], ?_, ?_⟩
      · simp only [ha, hb, hc]
      · exact List.Forall₂.cons ⟨ha2, hb2, hc2⟩ List.Forall₂.nil

theorem mem_indexTriples (n i j k : Nat) :
    (i, j, k) ∈ indexTriples n ↔ i < j ∧ j < k ∧ k < n := by
  simp only [indexTriples, List.mem_flatMap, List.mem_map, List.mem_range'_1, Prod.mk.injEq]
  constructor
  · rintro ⟨a, ha, b, hb, c, hc, rfl, rfl, rfl⟩
    omega
  · rintro ⟨h1, h2, h3⟩
    exact ⟨i, by omega, j, by omega, k, by omega, rfl, rfl, rfl⟩

theorem pairwise_indexTriples (n : Nat) : List.Pairwise lexLT (indexTriples n) := by
  unfold indexTriples
  rw [List.pairwise_flatMap]
  refine ⟨fun i _ => ?_, ?_⟩
  · rw [List.pairwise_flatMap]
    refine ⟨fun j _ => ?_, ?_⟩
    · rw [List.pairwise_map]
      exact (List.pairwise_lt_range' (j + 1) (n - (j + 1))).imp
        (fun h => Or.inr ⟨rfl, Or.inr ⟨rfl, h⟩⟩)
    · refine (List.pairwise_lt_range' (i + 1) (n - 1 - (i + 1))).imp ?_
      intro a b hab x hx y hy
      simp only [List.mem_map] at hx hy
      obtain ⟨_, _, rfl⟩ := hx
      obtain ⟨_, _, rfl⟩ := hy
      exact Or.inr ⟨rfl, Or.inl hab⟩
  · refine (List.pairwise_lt_range' 0 (n - 2)).imp ?_
    intro a b hab x hx y hy
    simp only [List.mem_flatMap, List.mem_map] at hx hy
    obtain ⟨_, _, _, _, rfl⟩ := hx
    obtain ⟨_, _, _, _, rfl⟩ := hy
    exact Or.inl hab

theorem length_pairLoop (n i : Nat) : ∀ (c lo : Nat), lo + c = n - 1 →
    ((List.range' lo c).flatMap fun j =>
      (List.range' (j + 1) (n - (j + 1))).map fun k => (i, j, k)).length =
      Nat.choose (c + 1) 2 := by
  intro c
  induction c with
  | zero => intro lo _; simp
  | succ c ih =>
    intro lo h
    rw [List.range'_succ, List.flatMap_cons, List.length_append, ih (lo + 1) (by omega),
      List.length_map, List.length_range', Nat.choose_succ_succ (c + 1) 1]
    have : n - (lo + 1) = c + 1 := by omega
    rw [this, Nat.choose_one_right]

theorem length_tripleLoop (n : Nat) : ∀ (c lo : Nat), lo + c = n - 2 → 2 ≤ n →
    ((List.range' lo c).flatMap fun i =>
      (List.range' (i + 1) (n - 1 - (i + 1))).flatMap fun j =>
        (List.range' (j + 1) (n - (j + 1))).map fun k => (i, j, k)).length =
      Nat.choose (c + 2) 3 := by
  intro c
  induction c with
  | zero => intro lo _ _; simp [Nat.choose]
  | succ c ih =>
    intro lo h hn
    rw [List.range'_succ, List.flatMap_cons, List.length_append, ih (lo + 1) (by omega) hn,
      length_pairLoop n lo (n - 1 - (lo + 1)) (lo + 1) (by omega),
      Nat.choose_succ_succ (c + 2) 2]
    have : n - 1 - (lo + 1) + 1 = c + 2 := by omega
    rw [this]

theorem length_indexTriples (n : Nat) (hn : 2 ≤ n) :
    (indexTriples n).length = Nat.choose n 3 := by
  have h := length_tripleLoop n (n - 2) 0 (by omega) hn
  have e : n - 2 + 2 = n := by omega
  rw [e] at h
  exact h

theorem allPoints_eq {K : Type} [Zero K] (field : Field K) (enemy_players : List (Point K)) :
    allPoints field enemy_players =
      enemy_players ++ [field.enemyCornerNeg, field.enemyCornerPos,
        Point.mk 0 field.enemyCornerPos.y, Point.mk 0 field.enemyCornerNeg.y] := by
  simp [allPoints]

theorem getAllTriangles_spec {K : Type} [Zero K] (field : Field K)
    (enemy_players : List (Point K)) (hsize : enemy_players.length + 4 < 2 ^ 64) :
    ∃ out, getAllTrianglesBetweenEnemyPlayers field enemy_players = Except.ok out ∧
      List.Forall₂ (TriangleAt (allPoints field enemy_players)) out
        (indexTriples (enemy_players.length + 4)) := by
  have hl : (allPoints field enemy_players).length = enemy_players.length + 4 := by
    simp [allPoints]
  have := tripleLoop_spec (allPoints field enemy_players) (by omega) (by omega)
  rw [hl] at this
  unfold getAllTrianglesBetweenEnemyPlayers
  simp only [hl]
  exact this

/-- C1: for every list of `m` enemy positions (of a size a vector can have) and every
field, `getAllTrianglesBetweenEnemyPlayers` returns normally and its result has exactly
`C(m + 4, 3)` triangles. -/
theorem getAllTriangles_length {K : Type} [Zero K] (field : Field K)
    (enemy_players : List (Point K)) (hsize : enemy_players.length + 4 < 2 ^ 64) :
    ∃ out, getAllTrianglesBetweenEnemyPlayers field enemy_players = Except.ok out ∧
      out.length = Nat.choose (enemy_players.length + 4) 3 := by
  obtain ⟨out, h, r⟩ := getAllTriangles_spec field enemy_players hsize
  exact ⟨out, h, by rw [r.length_eq, length_indexTriples _ (by omega)]⟩

/-- Witness for C1 on the world of the unit test (one enemy at `(1, 2)`, enemy corners at
`(4.5, -3)` and `(4.5, 3)`): ten triangles. -/
theorem getAllTriangles_length_witness :
    [Point.mk (1 : ℚ) 2].length + 4 < 2 ^ 64 ∧
    ∃ out, getAllTrianglesBetweenEnemyPlayers
        (Field.mk (Point.mk (9 / 2 : ℚ) 0) (Point.mk (9 / 2) (-3)) (Point.mk (9 / 2) 3))
        [Point.mk 1 2] = Except.ok out ∧
      out.length = Nat.choose ([Point.mk (1 : ℚ) 2].length + 4) 3 :=
  ⟨by decide, getAllTriangles_length _ _ (by decide)⟩

/-- C2: with `S` the enemy positions followed by the four boundary points, the output of
`getAllTrianglesBetweenEnemyPlayers` lists the triangles `(S[i], S[j], S[k])`, vertices in
that order, along a list of index triples that is strictly increasing in the
lexicographic order (so each triple occurs once) and contains exactly the triples with
`i < j < k < |S|`. -/
theorem getAllTriangles_enumerates {K : Type} [Zero K] (field : Field K)
    (enemy_players : List (Point K)) (hsize : enemy_players.length + 4 < 2 ^ 64) :
    ∃ (out : List (Triangle K)) (idx : List (Nat × Nat × Nat)),
      getAllTrianglesBetweenEnemyPlayers field enemy_players = Except.ok out ∧
      List.Pairwise lexLT idx ∧
      (∀ i j k, (i, j, k) ∈ idx ↔ i < j ∧ j < k ∧ k < enemy_players.length + 4) ∧
      List.Forall₂ (TriangleAt (enemy_players ++ [field.enemyCornerNeg, field.enemyCornerPos,
        Point.mk 0 field.enemyCornerPos.y, Point.mk 0 field.enemyCornerNeg.y])) out idx := by
  obtain ⟨out, h, r⟩ := getAllTriangles_spec field enemy_players hsize
  rw [allPoints_eq] at r
  exact ⟨out, indexTriples (enemy_players.length + 4), h, pairwise_indexTriples _,
    mem_indexTriples _, r⟩

/-- Witness for C2 on the world of the unit test. -/
theorem getAllTriangles_enumerates_witness :
    [Point.mk (1 : ℚ) 2].length + 4 < 2 ^ 64 ∧
    ∃ (out : List (Triangle ℚ)) (idx : List (Nat × Nat × Nat)),
      getAllTrianglesBetweenEnemyPlayers
        (Field.mk (Point.mk (9 / 2 : ℚ) 0) (Point.mk (9 / 2) (-3)) (Point.mk (9 / 2) 3))
        [Point.mk 1 2] = Except.ok out ∧
      List.Pairwise lexLT idx ∧
      (∀ i j k, (i, j, k) ∈ idx ↔ i < j ∧ j < k ∧ k < [Point.mk (1 : ℚ) 2].length + 4) ∧
      List.Forall₂ (TriangleAt ([Point.mk (1 : ℚ) 2] ++ [Point.mk (9 / 2) (-3),
        Point.mk (9 / 2) 3, Point.mk 0 3, Point.mk 0 (-3)])) out idx :=
  ⟨by decide, getAllTriangles_enumerates _ _ (by decide)⟩


/-! ## The selection loop -/

theorem iterate_vectorAt {α σ : Type} (l : List α) (step : σ → α → σ) :
    ∀ (n lo : Nat) (s : σ), lo + n ≤ l.length →
      iterate (fun i s => (vectorAt l i).map fun t => step s t) lo n s =
      Except.ok (((l.drop lo).take n).foldl step s) := by
  intro n
  induction n with
  | zero => intro lo s _; simp [iterate]
  | succ n ih =>
    intro lo s h
    have hlt : lo < l.length := by omega
    have hd : l.drop lo = l[lo] :: l.drop (lo + 1) := List.drop_eq_getElem_cons hlt
    have hv : vectorAt l lo = Except.ok l[lo] := by
      simp [vectorAt, List.getElem?_eq_getElem hlt]
    rw [iterate, hv]
    show iterate _ (lo + 1) n (step s l[lo]) = _
    rw [ih (lo + 1) _ (by omega), hd, List.take_succ_cons, List.foldl_cons]

theorem getLargestValidTriangle_cons {K : Type} [LinearOrderedField K] [FloorRing K]
    (G : Geom K) (first : Triangle K) (rest : List (Triangle K))
    (min_area min_edge_len min_edge_angle : K) :
    getLargestValidTriangle G (first :: rest) min_area min_edge_len min_edge_angle =
      Except.ok (some ((first :: rest).foldl
        (largestStep G min_area min_edge_len min_edge_angle)
        (first, getTriangleArea first)).1) := by
  unfold getLargestValidTriangle forLoop
  have hv : vectorAt (first :: rest) 0 = Except.ok first := by simp [vectorAt]
  rw [hv]
  simp only [Except.bind]
  rw [iterate_vectorAt (first :: rest) _ _ 0 _ (by simp)]
  simp [Except.map]

theorem largestStep_eq {K : Type} [LinearOrderedField K] [FloorRing K] (G : Geom K)
    (min_area min_edge_len min_edge_angle : K) (s : Triangle K × K) (t : Triangle K) :
    largestStep G min_area min_edge_len min_edge_angle s t =
      if getTriangleArea t ≥ s.2 ∧ IsValidTriangle G min_area min_edge_len min_edge_angle t
      then (t, getTriangleArea t) else s := rfl

theorem foldl_largestStep_inv {K : Type} [LinearOrderedField K] [FloorRing K] (G : Geom K)
    (min_area min_edge_len min_edge_angle : K) (l : List (Triangle K)) :
    ∀ s : Triangle K × K, s.2 = getTriangleArea s.1 →
      (l.foldl (largestStep G min_area min_edge_len min_edge_angle) s).2 =
        getTriangleArea (l.foldl (largestStep G min_area min_edge_len min_edge_angle) s).1 ∧
      s.2 ≤ (l.foldl (largestStep G min_area min_edge_len min_edge_angle) s).2 ∧
      ((l.foldl (largestStep G min_area min_edge_len min_edge_angle) s).1 = s.1 ∨
        (l.foldl (largestStep G min_area min_edge_len min_edge_angle) s).1 ∈ l) ∧
      ∀ u ∈ l, IsValidTriangle G min_area min_edge_len min_edge_angle u →
        getTriangleArea u ≤
          (l.foldl (largestStep G min_area min_edge_len min_edge_angle) s).2 := by
  induction l with
  | nil => intro s hs; simp [hs]
  | cons t l ih =>
    intro s hs
    rw [List.foldl_cons]
    have hstep : (largestStep G min_area min_edge_len min_edge_angle s t).2 =
        getTriangleArea (largestStep G min_area min_edge_len min_edge_angle s t).1 ∧
        s.2 ≤ (largestStep G min_area min_edge_len min_edge_angle s t).2 ∧
        ((largestStep G min_area min_edge_len min_edge_angle s t).1 = s.1 ∨
          (largestStep G min_area min_edge_len min_edge_angle s t).1 = t) ∧
        (IsValidTriangle G min_area min_edge_len min_edge_angle t →
          getTriangleArea t ≤ (largestStep G min_area min_edge_len min_edge_angle s t).2) := by
      rw [largestStep_eq]
      by_cases hc : getTriangleArea t ≥ s.2 ∧
          IsValidTriangle G min_area min_edge_len min_edge_angle t
      · rw [if_pos hc]
        exact ⟨rfl, hc.1, Or.inr rfl, fun _ => le_refl _⟩
      · rw [if_neg hc]
        refine ⟨hs, le_refl _, Or.inl rfl, fun hv => ?_⟩
        exact le_of_lt (lt_of_not_ge fun h => hc ⟨h, hv⟩)
    obtain ⟨h1, h2, h3, h4⟩ := hstep
    obtain ⟨i1, i2, i3, i4⟩ := ih _ h1
    refine ⟨i1, le_trans h2 i2, ?_, ?_⟩
    · rcases i3 with e | m
      · rcases h3 with e2 | e2
        · exact Or.inl (e.trans e2)
        · exact Or.inr (by rw [e, e2]; exact List.mem_cons_self _ _)
      · exact Or.inr (List.mem_cons_of_mem _ m)
    · intro u hu hv
      rcases List.mem_cons.mp hu with rfl | hu
      · exact le_trans (h4 hv) i2
      · exact i4 u hu hv

theorem isValidTriangle_zero {K : Type} [LinearOrderedField K] [FloorRing K] (G : Geom K)
    (hsqrt : ∀ q, 0 ≤ G.sqrt q) (hpi : 0 < G.pi) (t : Triangle K) :
    IsValidTriangle G 0 0 0 t := by
  have hdeg : ∀ a : Angle K, (a.abs).toDegrees G ≥ 0 := by
    intro a
    unfold Angle.abs Angle.toDegrees Angle.ofRadians Angle.toRadians
    have : 0 ≤ (if a.rads < 0 then -a.rads else a.rads) := by
      split_ifs with h
      · exact le_of_lt (neg_pos.mpr h)
      · exact not_lt.mp h
    positivity
  exact ⟨abs_nonneg _, hsqrt _, hsqrt _, hsqrt _, hdeg _, hdeg _, hdeg _⟩

/-- C7: for a non-empty input sequence `getLargestValidTriangle` returns a triangle; it is
an element of the input and its area is at least the area of every triangle of the input
that meets the thresholds. When the three thresholds are `0` (and the square root is
non-negative and `M_PI` positive) it is a triangle of maximum area in the sequence. -/
theorem getLargestValidTriangle_mem_max {K : Type} [LinearOrderedField K] [FloorRing K]
    (G : Geom K) (allTriangles : List (Triangle K)) (min_area min_edge_len min_edge_angle : K)
    (hne : allTriangles ≠ []) :
    ∃ t, getLargestValidTriangle G allTriangles min_area min_edge_len min_edge_angle =
        Except.ok (some t) ∧
      t ∈ allTriangles ∧
      (∀ u ∈ allTriangles, IsValidTriangle G min_area min_edge_len min_edge_angle u →
        getTriangleArea u ≤ getTriangleArea t) ∧
      ((∀ q, 0 ≤ G.sqrt q) → 0 < G.pi → min_area = 0 → min_edge_len = 0 →
        min_edge_angle = 0 → ∀ u ∈ allTriangles, getTriangleArea u ≤ getTriangleArea t) := by
  obtain ⟨first, rest, rfl⟩ := List.exists_cons_of_ne_nil hne
  obtain ⟨i1, _, i3, i4⟩ := foldl_largestStep_inv G min_area min_edge_len min_edge_angle
    (first :: rest) (first, getTriangleArea first) rfl
  refine ⟨_, getLargestValidTriangle_cons G first rest _ _ _, ?_, ?_, ?_⟩
  · rcases i3 with e | m
    · rw [e]; exact List.mem_cons_self _ _
    · exact m
  · intro u hu hv
    rw [← i1]
    exact i4 u hu hv
  · intro hsqrt hpi ha he hg u hu
    subst ha he hg
    rw [← i1]
    exact i4 u hu (isValidTriangle_zero G hsqrt hpi u)

/-- Witness for C7: two triangles over the rationals, all thresholds `0`. -/
theorem getLargestValidTriangle_mem_max_witness :
    [Triangle.mk (Point.mk (-1 / 2 : ℚ) (-1 / 2)) (Point.mk 0 (1 / 2)) (Point.mk (1 / 2) (-1 / 2)),
      Triangle.mk (Point.mk 0 0) (Point.mk 3 0) (Point.mk 0 4)] ≠ [] ∧
    ∃ t, getLargestValidTriangle (Geom.mk Rat.sqrt (355 / 113) fun _ _ _ => Angle.mk 0)
        [Triangle.mk (Point.mk (-1 / 2 : ℚ) (-1 / 2)) (Point.mk 0 (1 / 2))
          (Point.mk (1 / 2) (-1 / 2)),
         Triangle.mk (Point.mk 0 0) (Point.mk 3 0) (Point.mk 0 4)] 0 0 0 = Except.ok (some t) ∧
      t ∈ [Triangle.mk (Point.mk (-1 / 2 : ℚ) (-1 / 2)) (Point.mk 0 (1 / 2))
          (Point.mk (1 / 2) (-1 / 2)),
         Triangle.mk (Point.mk 0 0) (Point.mk 3 0) (Point.mk 0 4)] ∧
      (∀ u ∈ [Triangle.mk (Point.mk (-1 / 2 : ℚ) (-1 / 2)) (Point.mk 0 (1 / 2))
          (Point.mk (1 / 2) (-1 / 2)),
         Triangle.mk (Point.mk 0 0) (Point.mk 3 0) (Point.mk 0 4)],
        IsValidTriangle (Geom.mk Rat.sqrt (355 / 113) fun _ _ _ => Angle.mk 0) 0 0 0 u →
        getTriangleArea u ≤ getTriangleArea t) ∧
      ((∀ q, 0 ≤ (Geom.mk Rat.sqrt (355 / 113) fun _ _ _ => Angle.mk 0).sqrt q) →
        0 < (Geom.mk Rat.sqrt (355 / 113 : ℚ) fun _ _ _ => Angle.mk 0).pi →
        (0 : ℚ) = 0 → (0 : ℚ) = 0 → (0 : ℚ) = 0 →
        ∀ u ∈ [Triangle.mk (Point.mk (-1 / 2 : ℚ) (-1 / 2)) (Point.mk 0 (1 / 2))
          (Point.mk (1 / 2) (-1 / 2)),
         Triangle.mk (Point.mk 0 0) (Point.mk 3 0) (Point.mk 0 4)],
        getTriangleArea u ≤ getTriangleArea t) :=
  ⟨by simp, getLargestValidTriangle_mem_max _ _ _ _ _ (by simp)⟩

/-- C3, evaluated at a failing input: on the one-element sequence holding the triangle
`(0,0), (1,0), (0,1)` of area `1/2`, with `min_area = 1`, `getLargestValidTriangle`
returns that triangle although it does not meet the area threshold. -/
theorem getLargestValidTriangle_returns_invalid (G : Geom ℚ) :
    getLargestValidTriangle G
        [Triangle.mk (Point.mk 0 0) (Point.mk 1 0) (Point.mk 0 1)] 1 0 0 =
      Except.ok (some (Triangle.mk (Point.mk 0 0) (Point.mk 1 0) (Point.mk 0 1))) ∧
    ¬ IsValidTriangle G 1 0 0 (Triangle.mk (Point.mk 0 0) (Point.mk 1 0) (Point.mk 0 1)) := by
  constructor
  · rw [getLargestValidTriangle_cons, List.foldl_cons, List.foldl_nil, largestStep_eq]
    split_ifs <;> rfl
  · intro h
    have h1 := h.1
    norm_num [getTriangleArea, abs_of_pos] at h1

/-- C4, evaluated at a failing input: with `min_area = 100` neither of the two triangles
of the sequence meets the thresholds, and `getLargestValidTriangle` returns the first one
instead of an empty optional. -/
theorem getLargestValidTriangle_none_valid (G : Geom ℚ) :
    (∀ u ∈ [Triangle.mk (Point.mk (0 : ℚ) 0) (Point.mk 1 0) (Point.mk 0 1),
        Triangle.mk (Point.mk 0 0) (Point.mk 3 0) (Point.mk 0 4)],
      ¬ IsValidTriangle G 100 0 0 u) ∧
    getLargestValidTriangle G
        [Triangle.mk (Point.mk 0 0) (Point.mk 1 0) (Point.mk 0 1),
         Triangle.mk (Point.mk 0 0) (Point.mk 3 0) (Point.mk 0 4)] 100 0 0 =
      Except.ok (some (Triangle.mk (Point.mk 0 0) (Point.mk 1 0) (Point.mk 0 1))) := by
  have hinv : ∀ u ∈ [Triangle.mk (Point.mk (0 : ℚ) 0) (Point.mk 1 0) (Point.mk 0 1),
        Triangle.mk (Point.mk 0 0) (Point.mk 3 0) (Point.mk 0 4)],
      ¬ IsValidTriangle G 100 0 0 u := by
    intro u hu h
    have h1 := h.1
    simp only [List.mem_cons, List.mem_singleton, List.not_mem_nil, or_false] at hu
    rcases hu with rfl | rfl <;> norm_num [getTriangleArea, abs_of_pos] at h1
  refine ⟨hinv, ?_⟩
  rw [getLargestValidTriangle_cons, List.foldl_cons, List.foldl_cons, List.foldl_nil,
    largestStep_eq, largestStep_eq]
  rw [if_neg (fun h => hinv _ (by simp) h.2)]
  rw [if_neg (fun h => hinv _ (by simp) h.2)]

/-- C5, counterexample: on the empty sequence `getLargestValidTriangle` does not return an
empty optional; the read of `allTriangles[0]` is out of range. -/
theorem getLargestValidTriangle_nil_counterexample :
    getLargestValidTriangle (Geom.mk Rat.sqrt (355 / 113) fun _ _ _ => Angle.mk 0)
        ([] : List (Triangle ℚ)) 0 0 0 ≠ Except.ok none ∧
    getLargestValidTriangle (Geom.mk Rat.sqrt (355 / 113) fun _ _ _ => Angle.mk 0)
        ([] : List (Triangle ℚ)) 0 0 0 = Except.error Fault.indexOutOfRange := by
  constructor
  · intro h
    simp [getLargestValidTriangle, vectorAt, Except.bind] at h
  · rfl

/-- C5, amended: on the empty sequence `getLargestValidTriangle` reads `allTriangles[0]`
out of range, for any thresholds; the empty case is handled by its caller
`findTargetPointForIndirectChipAndChase`, which tests `triangles.empty()` first and
returns an empty optional without calling the selector. -/
theorem getLargestValidTriangle_nil {K : Type} [LinearOrderedField K] [FloorRing K]
    (G : Geom K) (cfg : Config K) (min_area min_edge_len min_edge_angle : K)
    (ball_position : Point K) :
    getLargestValidTriangle G [] min_area min_edge_len min_edge_angle =
      Except.error Fault.indexOutOfRange ∧
    findTargetPointForIndirectChipAndChase G cfg [] ball_position = Except.ok none := by
  constructor
  · rfl
  · rfl

/-- C6, evaluated at a failing input: with `min_area = 1` and `min_edge_len = 2` the
second and third triangles of the sequence are valid and of equal area `6`, the first has
area `50` but an edge of length `1` and is not valid, and `getLargestValidTriangle`
returns the first instead of the third. -/
theorem getLargestValidTriangle_tie_failing (G : Geom ℚ) (hpi : 0 < G.pi)
    (h1 : G.sqrt 1 = 1) (h9 : G.sqrt 9 = 3) (h16 : G.sqrt 16 = 4) (h25 : G.sqrt 25 = 5) :
    IsValidTriangle G 1 2 0 (Triangle.mk (Point.mk 0 0) (Point.mk 3 0) (Point.mk 0 4)) ∧
    IsValidTriangle G 1 2 0 (Triangle.mk (Point.mk 0 0) (Point.mk 4 0) (Point.mk 0 3)) ∧
    getTriangleArea (Triangle.mk (Point.mk (0 : ℚ) 0) (Point.mk 3 0) (Point.mk 0 4)) =
      getTriangleArea (Triangle.mk (Point.mk (0 : ℚ) 0) (Point.mk 4 0) (Point.mk 0 3)) ∧
    ¬ IsValidTriangle G 1 2 0 (Triangle.mk (Point.mk 0 0) (Point.mk 1 0) (Point.mk 0 100)) ∧
    getLargestValidTriangle G
        [Triangle.mk (Point.mk 0 0) (Point.mk 1 0) (Point.mk 0 100),
         Triangle.mk (Point.mk 0 0) (Point.mk 3 0) (Point.mk 0 4),
         Triangle.mk (Point.mk 0 0) (Point.mk 4 0) (Point.mk 0 3)] 1 2 0 =
      Except.ok (some (Triangle.mk (Point.mk 0 0) (Point.mk 1 0) (Point.mk 0 100))) := by
  have hdeg : ∀ a : Angle ℚ, (a.abs).toDegrees G ≥ 0 := by
    intro a
    unfold Angle.abs Angle.toDegrees Angle.ofRadians Angle.toRadians
    have : 0 ≤ (if a.rads < 0 then -a.rads else a.rads) := by
      split_ifs with h
      · exact le_of_lt (neg_pos.mpr h)
      · exact not_lt.mp h
    positivity
  have hsub : ∀ a b : Point ℚ, a - b = Point.mk (a.x - b.x) (a.y - b.y) := fun _ _ => rfl
  have hbad : ¬ IsValidTriangle G 1 2 0
      (Triangle.mk (Point.mk 0 0) (Point.mk 1 0) (Point.mk 0 100)) := by
    intro h
    have h2 := h.2.1
    norm_num [Point.len, hsub, h1] at h2
  refine ⟨⟨?_, ?_, ?_, ?_, hdeg _, hdeg _, hdeg _⟩, ⟨?_, ?_, ?_, ?_, hdeg _, hdeg _, hdeg _⟩,
    ?_, hbad, ?_⟩
  · norm_num [getTriangleArea, abs_of_pos]
  · norm_num [Point.len, hsub, h9]
  · norm_num [Point.len, hsub, h16]
  · norm_num [Point.len, hsub, h25]
  · norm_num [getTriangleArea, abs_of_pos]
  · norm_num [Point.len, hsub, h16]
  · norm_num [Point.len, hsub, h9]
  · norm_num [Point.len, hsub, h25]
  · norm_num [getTriangleArea]
  · have e1 : ∀ u : Triangle ℚ, getTriangleArea u < 50 ∨
        u = Triangle.mk (Point.mk 0 0) (Point.mk 1 0) (Point.mk 0 100) →
        largestStep G 1 2 0 (Triangle.mk (Point.mk 0 0) (Point.mk 1 0) (Point.mk 0 100),
          getTriangleArea (Triangle.mk (Point.mk (0 : ℚ) 0) (Point.mk 1 0) (Point.mk 0 100))) u =
        (Triangle.mk (Point.mk 0 0) (Point.mk 1 0) (Point.mk 0 100),
          getTriangleArea (Triangle.mk (Point.mk (0 : ℚ) 0) (Point.mk 1 0) (Point.mk 0 100))) := by
      intro u hu
      rw [largestStep_eq, if_neg]
      rintro ⟨ha, hv⟩
      rcases hu with hu | rfl
      · have h50 : getTriangleArea
            (Triangle.mk (Point.mk (0 : ℚ) 0) (Point.mk 1 0) (Point.mk 0 100)) = 50 := by
          norm_num [getTriangleArea, abs_of_pos]
        rw [h50] at ha
        exact absurd ha (not_le.mpr hu)
      · exact hbad hv
    rw [getLargestValidTriangle_cons, List.foldl_cons, List.foldl_cons, List.foldl_cons,
      List.foldl_nil, e1 _ (Or.inr rfl),
      e1 _ (Or.inl (by norm_num [getTriangleArea, abs_of_pos])),
      e1 _ (Or.inl (by norm_num [getTriangleArea, abs_of_pos]))]

/-- Witness for the evaluation of C6, with the rational square root of Mathlib, which is
exact on squares. -/
theorem getLargestValidTriangle_tie_failing_witness :
    (0 : ℚ) < 355 / 113 ∧ Rat.sqrt 1 = 1 ∧ Rat.sqrt 9 = 3 ∧ Rat.sqrt 16 = 4 ∧
    Rat.sqrt 25 = 5 ∧
    getLargestValidTriangle (Geom.mk Rat.sqrt (355 / 113) fun _ _ _ => Angle.mk 0)
        [Triangle.mk (Point.mk 0 0) (Point.mk 1 0) (Point.mk 0 100),
         Triangle.mk (Point.mk 0 0) (Point.mk 3 0) (Point.mk 0 4),
         Triangle.mk (Point.mk 0 0) (Point.mk 4 0) (Point.mk 0 3)] 1 2 0 =
      Except.ok (some (Triangle.mk (Point.mk 0 0) (Point.mk 1 0) (Point.mk 0 100))) :=
  have s1 : Rat.sqrt 1 = 1 := by rw [show (1 : ℚ) = 1 * 1 by norm_num, Rat.sqrt_eq]; norm_num
  have s9 : Rat.sqrt 9 = 3 := by rw [show (9 : ℚ) = 3 * 3 by norm_num, Rat.sqrt_eq]; norm_num
  have s16 : Rat.sqrt 16 = 4 := by
    rw [show (16 : ℚ) = 4 * 4 by norm_num, Rat.sqrt_eq]; norm_num
  have s25 : Rat.sqrt 25 = 5 := by
    rw [show (25 : ℚ) = 5 * 5 by norm_num, Rat.sqrt_eq]; norm_num
  ⟨by norm_num, s1, s9, s16, s25,
    (getLargestValidTriangle_tie_failing (Geom.mk Rat.sqrt (355 / 113) fun _ _ _ => Angle.mk 0)
      (by norm_num) s1 s9 s16 s25).2.2.2.2⟩


/-! ## The projection onto the chip range -/

theorem Point.sub_def {K : Type} [Sub K] (a b : Point K) :
    a - b = Point.mk (a.x - b.x) (a.y - b.y) := rfl

theorem Point.add_def {K : Type} [Add K] (a b : Point K) :
    a + b = Point.mk (a.x + b.x) (a.y + b.y) := rfl

theorem Point.norm_of_len_ne_zero {K : Type} [LinearOrderedField K] (G : Geom K)
    (v : Point K) (l : K) (hv : v.len G ≠ 0) :
    v.norm G l = Point.mk (l / v.len G * v.x) (l / v.len G * v.y) := by
  unfold Point.norm
  rw [if_neg hv]
  congr 1 <;> ring

theorem getLargestValidTriangle_singleton {K : Type} [LinearOrderedField K] [FloorRing K]
    (G : Geom K) (t : Triangle K) (min_area min_edge_len min_edge_angle : K) :
    getLargestValidTriangle G [t] min_area min_edge_len min_edge_angle =
      Except.ok (some t) := by
  rw [getLargestValidTriangle_cons, List.foldl_cons, List.foldl_nil, largestStep_eq]
  split_ifs <;> rfl

theorem findTarget_of_selected {K : Type} [LinearOrderedField K] [FloorRing K]
    (G : Geom K) (cfg : Config K) (triangles : List (Triangle K)) (ball_position : Point K)
    (t : Triangle K) (hne : triangles ≠ [])
    (ht : getLargestValidTriangle G triangles cfg.min_chip_tri_area
      cfg.min_chip_tri_edge_len 0 = Except.ok (some t)) :
    findTargetPointForIndirectChipAndChase G cfg triangles ball_position =
      Except.ok (some
        (if (((getTriangleCenter t).norm G
              (((getTriangleCenter t) - ball_position).len G *
                cfg.chip_cherry_power_downscale)) - ball_position).len G > cfg.max_chip_power
         then ball_position + (((getTriangleCenter t).norm G
              (((getTriangleCenter t) - ball_position).len G *
                cfg.chip_cherry_power_downscale)) - ball_position).norm G cfg.max_chip_power
         else (getTriangleCenter t).norm G
              (((getTriangleCenter t) - ball_position).len G *
                cfg.chip_cherry_power_downscale))) := by
  unfold findTargetPointForIndirectChipAndChase
  have : ¬ (triangles.isEmpty = true) := by
    simpa [List.isEmpty_iff] using hne
  rw [if_pos this, ht]

/-- C8, evaluated at a failing input: the triangle `(3,-3), (3,3), (6,0)` has centre
`(4,0)`; with the ball at `(3,0)`, `power_downscale = 1` and `max_chip_power = 10` the
scaled displacement has length `1`, within the chip range, and the claimed target is
`(3,0) + 1 * ((4,0) - (3,0)) = (4,0)`. The code rescales the centre itself, as a vector
from the origin, and returns `(1,0)`. -/
theorem findTarget_downscale_failing (G : Geom ℚ) (inset : ℚ)
    (h1 : G.sqrt 1 = 1) (h4 : G.sqrt 4 = 2) (h16 : G.sqrt 16 = 4) :
    getTriangleCenter (Triangle.mk (Point.mk (3 : ℚ) (-3)) (Point.mk 3 3) (Point.mk 6 0)) =
      Point.mk 4 0 ∧
    1 * (getTriangleCenter (Triangle.mk (Point.mk (3 : ℚ) (-3)) (Point.mk 3 3) (Point.mk 6 0)) -
      Point.mk 3 0).len G ≤ 10 ∧
    findTargetPointForIndirectChipAndChase G (Config.mk 0 0 1 10 inset)
        [Triangle.mk (Point.mk 3 (-3)) (Point.mk 3 3) (Point.mk 6 0)] (Point.mk 3 0) =
      Except.ok (some (Point.mk 1 0)) ∧
    Point.mk (1 : ℚ) 0 ≠ Point.mk (3 + 1 * (4 - 3)) (0 + 1 * (0 - 0)) := by
  have hc : getTriangleCenter
      (Triangle.mk (Point.mk (3 : ℚ) (-3)) (Point.mk 3 3) (Point.mk 6 0)) = Point.mk 4 0 := by
    norm_num [getTriangleCenter]
  refine ⟨hc, ?_, ?_, ?_⟩
  · rw [hc]
    norm_num [Point.len, Point.sub_def, h1]
  · rw [findTarget_of_selected G _ _ _ _ (by simp)
      (getLargestValidTriangle_singleton G _ _ _ _), hc]
    have hd : (Point.mk (4 : ℚ) 0 - Point.mk 3 0).len G = 1 := by
      norm_num [Point.len, Point.sub_def, h1]
    have hn : (Point.mk (4 : ℚ) 0).norm G 1 = Point.mk 1 0 := by
      norm_num [Point.norm, Point.len, h16]
    have hl : (Point.mk (1 : ℚ) 0 - Point.mk 3 0).len G = 2 := by
      norm_num [Point.len, Point.sub_def, h4]
    simp only [hd, mul_one, hn, hl]
    norm_num
  · norm_num

/-- Witness for the evaluation of C8, with the rational square root of Mathlib, which is
exact on squares. -/
theorem findTarget_downscale_failing_witness :
    Rat.sqrt 1 = 1 ∧ Rat.sqrt 4 = 2 ∧ Rat.sqrt 16 = 4 ∧
    findTargetPointForIndirectChipAndChase
        (Geom.mk Rat.sqrt (355 / 113) fun _ _ _ => Angle.mk 0) (Config.mk 0 0 1 10 (3 / 10))
        [Triangle.mk (Point.mk 3 (-3)) (Point.mk 3 3) (Point.mk 6 0)] (Point.mk 3 0) =
      Except.ok (some (Point.mk 1 0)) :=
  have s1 : Rat.sqrt 1 = 1 := by rw [show (1 : ℚ) = 1 * 1 by norm_num, Rat.sqrt_eq]; norm_num
  have s4 : Rat.sqrt 4 = 2 := by rw [show (4 : ℚ) = 2 * 2 by norm_num, Rat.sqrt_eq]; norm_num
  have s16 : Rat.sqrt 16 = 4 := by
    rw [show (16 : ℚ) = 4 * 4 by norm_num, Rat.sqrt_eq]; norm_num
  ⟨s1, s4, s16,
    (findTarget_downscale_failing (Geom.mk Rat.sqrt (355 / 113) fun _ _ _ => Angle.mk 0)
      (3 / 10) s1 s4 s16).2.2.1⟩

/-- C10, evaluated at a failing input: the triangle `(3,-3), (3,3), (6,0)` has centre
`(4,0)`; with the ball at `(4,0)` the displacement has length zero, and the code returns
the origin `(0,0)` instead of the ball position. -/
theorem findTarget_zero_displacement_failing (G : Geom ℚ) (inset : ℚ)
    (h0 : G.sqrt 0 = 0) (h16 : G.sqrt 16 = 4) :
    getTriangleCenter (Triangle.mk (Point.mk (3 : ℚ) (-3)) (Point.mk 3 3) (Point.mk 6 0)) =
      Point.mk 4 0 ∧
    findTargetPointForIndirectChipAndChase G (Config.mk 0 0 (17 / 20) 10 inset)
        [Triangle.mk (Point.mk 3 (-3)) (Point.mk 3 3) (Point.mk 6 0)] (Point.mk 4 0) =
      Except.ok (some (Point.mk 0 0)) ∧
    Point.mk (0 : ℚ) 0 ≠ Point.mk 4 0 := by
  have hc : getTriangleCenter
      (Triangle.mk (Point.mk (3 : ℚ) (-3)) (Point.mk 3 3) (Point.mk 6 0)) = Point.mk 4 0 := by
    norm_num [getTriangleCenter]
  refine ⟨hc, ?_, ?_⟩
  · rw [findTarget_of_selected G _ _ _ _ (by simp)
      (getLargestValidTriangle_singleton G _ _ _ _), hc]
    have hd : (Point.mk (4 : ℚ) 0 - Point.mk 4 0).len G = 0 := by
      norm_num [Point.len, Point.sub_def, h0]
    have hn : (Point.mk (4 : ℚ) 0).norm G 0 = Point.mk 0 0 := by
      simp [Point.norm]
    have hl : (Point.mk (0 : ℚ) 0 - Point.mk 4 0).len G = 4 := by
      norm_num [Point.len, Point.sub_def, h16]
    simp only [hd, zero_mul, hn, hl]
    norm_num
  · norm_num

/-- Witness for the evaluation of C10, with the rational square root of Mathlib, which is
exact on squares. -/
theorem findTarget_zero_displacement_failing_witness :
    Rat.sqrt 0 = 0 ∧ Rat.sqrt 16 = 4 ∧
    findTargetPointForIndirectChipAndChase
        (Geom.mk Rat.sqrt (355 / 113) fun _ _ _ => Angle.mk 0)
        (Config.mk 0 0 (17 / 20) 10 (3 / 10))
        [Triangle.mk (Point.mk 3 (-3)) (Point.mk 3 3) (Point.mk 6 0)] (Point.mk 4 0) =
      Except.ok (some (Point.mk 0 0)) :=
  have s0 : Rat.sqrt 0 = 0 := by rw [show (0 : ℚ) = 0 * 0 by norm_num, Rat.sqrt_eq]; norm_num
  have s16 : Rat.sqrt 16 = 4 := by
    rw [show (16 : ℚ) = 4 * 4 by norm_num, Rat.sqrt_eq]; norm_num
  ⟨s0, s16,
    (findTarget_zero_displacement_failing
      (Geom.mk Rat.sqrt (355 / 113) fun _ _ _ => Angle.mk 0) (3 / 10) s0 s16).2.1⟩


/-! ## Absent results, centre and area -/

/-- C11: for the empty triangle list and every ball position,
`findTargetPointForIndirectChipAndChase(triangles, ball)` returns an empty optional. -/
theorem findTarget_nil {K : Type} [LinearOrderedField K] [FloorRing K] (G : Geom K)
    (cfg : Config K) (ball_position : Point K) :
    findTargetPointForIndirectChipAndChase G cfg [] ball_position = Except.ok none := rfl

/-- C12, evaluated at a failing input: the triangle `(3,-3), (3,3), (6,0)` has area `9`
and does not meet `min_chip_tri_area = 100`; with the ball at the origin,
`findTargetPointForIndirectChipAndChase` does not fault but returns the target `(4,0)`
instead of an empty optional. -/
theorem findTarget_none_valid_failing (G : Geom ℚ) (inset : ℚ) (h16 : G.sqrt 16 = 4) :
    (∀ u ∈ [Triangle.mk (Point.mk (3 : ℚ) (-3)) (Point.mk 3 3) (Point.mk 6 0)],
      ¬ IsValidTriangle G 100 0 0 u) ∧
    findTargetPointForIndirectChipAndChase G (Config.mk 100 0 1 10 inset)
        [Triangle.mk (Point.mk 3 (-3)) (Point.mk 3 3) (Point.mk 6 0)] (Point.mk 0 0) =
      Except.ok (some (Point.mk 4 0)) := by
  constructor
  · intro u hu h
    have h1 := h.1
    simp only [List.mem_singleton] at hu
    subst hu
    norm_num [getTriangleArea, abs_of_pos] at h1
  · have hc : getTriangleCenter
        (Triangle.mk (Point.mk (3 : ℚ) (-3)) (Point.mk 3 3) (Point.mk 6 0)) = Point.mk 4 0 := by
      norm_num [getTriangleCenter]
    rw [findTarget_of_selected G _ _ _ _ (by simp)
      (getLargestValidTriangle_singleton G _ _ _ _), hc]
    have hd : (Point.mk (4 : ℚ) 0 - Point.mk 0 0).len G = 4 := by
      norm_num [Point.len, Point.sub_def, h16]
    have hn : (Point.mk (4 : ℚ) 0).norm G 4 = Point.mk 4 0 := by
      norm_num [Point.norm, Point.len, h16]
    simp only [hd, mul_one, hn]
    norm_num

/-- Witness for the evaluation of C12, with the rational square root of Mathlib, which is
exact on squares. -/
theorem findTarget_none_valid_failing_witness :
    Rat.sqrt 16 = 4 ∧
    findTargetPointForIndirectChipAndChase
        (Geom.mk Rat.sqrt (355 / 113) fun _ _ _ => Angle.mk 0)
        (Config.mk 100 0 1 10 (3 / 10))
        [Triangle.mk (Point.mk 3 (-3)) (Point.mk 3 3) (Point.mk 6 0)] (Point.mk 0 0) =
      Except.ok (some (Point.mk 4 0)) :=
  have s16 : Rat.sqrt 16 = 4 := by
    rw [show (16 : ℚ) = 4 * 4 by norm_num, Rat.sqrt_eq]; norm_num
  ⟨s16, (findTarget_none_valid_failing
    (Geom.mk Rat.sqrt (355 / 113) fun _ _ _ => Angle.mk 0) (3 / 10) s16).2⟩

/-- C16: for the triangle with vertices `(x1,y1)`, `(x2,y2)`, `(x3,y3)`,
`getTriangleCenter` returns `((x1+x2+x3)/3, (y1+y2+y3)/3)` and `getTriangleArea` returns
`|x1*(y2-y3) + x2*(y3-y1) + x3*(y1-y2)| / 2`, which is non-negative. -/
theorem getTriangleCenter_getTriangleArea_formula {K : Type} [LinearOrderedField K]
    (x1 y1 x2 y2 x3 y3 : K) :
    getTriangleCenter (Triangle.mk (Point.mk x1 y1) (Point.mk x2 y2) (Point.mk x3 y3)) =
      Point.mk ((x1 + x2 + x3) / 3) ((y1 + y2 + y3) / 3) ∧
    getTriangleArea (Triangle.mk (Point.mk x1 y1) (Point.mk x2 y2) (Point.mk x3 y3)) =
      |x1 * (y2 - y3) + x2 * (y3 - y1) + x3 * (y1 - y2)| / 2 ∧
    0 ≤ getTriangleArea (Triangle.mk (Point.mk x1 y1) (Point.mk x2 y2) (Point.mk x3 y3)) := by
  refine ⟨rfl, ?_, abs_nonneg _⟩
  unfold getTriangleArea
  simp only
  have e : 1 / 2 * ((x2 - x1) * (y3 - y1) - (x3 - x1) * (y2 - y1)) =
      (x1 * (y2 - y3) + x2 * (y3 - y1) + x3 * (y1 - y2)) / 2 := by ring
  rw [e, abs_div, abs_of_pos (two_pos : (0 : K) < 2)]

/-! ## Degenerate triangles -/

/-- C18, counterexample: with the three thresholds equal to `0` the triangle with the
collinear vertices `(0,0), (1,0), (2,0)` has area `0`, meets the thresholds, and is
returned by `getLargestValidTriangle`. -/
theorem getLargestValidTriangle_degenerate_counterexample :
    getTriangleArea (Triangle.mk (Point.mk (0 : ℚ) 0) (Point.mk 1 0) (Point.mk 2 0)) = 0 ∧
    IsValidTriangle (Geom.mk Rat.sqrt (355 / 113) fun _ _ _ => Angle.mk 0) 0 0 0
      (Triangle.mk (Point.mk 0 0) (Point.mk 1 0) (Point.mk 2 0)) ∧
    getLargestValidTriangle (Geom.mk Rat.sqrt (355 / 113) fun _ _ _ => Angle.mk 0)
        [Triangle.mk (Point.mk 0 0) (Point.mk 1 0) (Point.mk 2 0)] 0 0 0 =
      Except.ok (some (Triangle.mk (Point.mk 0 0) (Point.mk 1 0) (Point.mk 2 0))) := by
  have hpi : (0 : ℚ) < 355 / 113 := by norm_num
  refine ⟨by norm_num [getTriangleArea], ?_, ?_⟩
  · exact isValidTriangle_zero (Geom.mk Rat.sqrt (355 / 113) fun _ _ _ => Angle.mk 0)
      (fun q => Rat.sqrt_nonneg q) hpi _
  · exact getLargestValidTriangle_singleton
      (Geom.mk Rat.sqrt (355 / 113) fun _ _ _ => Angle.mk 0) _ 0 0 0

/-- C18, amended: when `min_area` is positive, a triangle of area `0` (collinear
vertices) does not meet the thresholds, and whenever the input holds a triangle that
meets them, `getLargestValidTriangle` returns a triangle of positive area. -/
theorem getLargestValidTriangle_not_degenerate {K : Type} [LinearOrderedField K]
    [FloorRing K] (G : Geom K) (min_area min_edge_len min_edge_angle : K)
    (hpos : 0 < min_area) :
    (∀ t : Triangle K, getTriangleArea t = 0 →
      ¬ IsValidTriangle G min_area min_edge_len min_edge_angle t) ∧
    ∀ allTriangles : List (Triangle K),
      (∃ u ∈ allTriangles, IsValidTriangle G min_area min_edge_len min_edge_angle u) →
      ∃ t, getLargestValidTriangle G allTriangles min_area min_edge_len min_edge_angle =
          Except.ok (some t) ∧ 0 < getTriangleArea t := by
  constructor
  · intro t h0 hv
    have h1 : getTriangleArea t ≥ min_area := hv.1
    rw [h0] at h1
    exact absurd hpos (not_lt.mpr h1)
  · rintro allTriangles ⟨u, hu, hv⟩
    obtain ⟨t, ht, _, hmax, _⟩ := getLargestValidTriangle_mem_max G allTriangles min_area
      min_edge_len min_edge_angle (List.ne_nil_of_mem hu)
    exact ⟨t, ht, lt_of_lt_of_le (lt_of_lt_of_le hpos hv.1) (hmax u hu hv)⟩

/-- Witness for the amended C18, at `min_area = 1`. -/
theorem getLargestValidTriangle_not_degenerate_witness :
    (0 : ℚ) < 1 ∧
    ∀ t : Triangle ℚ, getTriangleArea t = 0 →
      ¬ IsValidTriangle (Geom.mk Rat.sqrt (355 / 113) fun _ _ _ => Angle.mk 0) 1 0 0 t :=
  ⟨one_pos, (getLargestValidTriangle_not_degenerate
    (Geom.mk Rat.sqrt (355 / 113) fun _ _ _ => Angle.mk 0) 1 0 0 one_pos).1⟩


/-! ## The two filters -/

theorem foldl_push_eq_filter {α : Type} (p : α → Bool) (l : List α) :
    ∀ init : List α,
      l.foldl (fun acc t => if p t then acc ++ [t] else acc) init = init ++ l.filter p := by
  induction l with
  | nil => intro init; simp
  | cons a l ih =>
    intro init
    rw [List.foldl_cons, ih]
    by_cases h : p a
    · simp [h]
    · simp [h]

theorem iterate_vectorAt_all {α σ : Type} (l : List α) (step : σ → α → σ) (s : σ) :
    forLoop 0 l.length (fun i s => (vectorAt l i).map fun t => step s t) s =
      Except.ok (l.foldl step s) := by
  unfold forLoop
  rw [iterate_vectorAt l step _ 0 s (by simp)]
  simp

theorem iterateBreak_any {α : Type} (E : List α) (c : α → Bool) :
    ∀ (n lo : Nat), lo + n ≤ E.length →
      iterateBreak (fun k (b : Bool) =>
        (vectorAt E k).map fun e => if c e then (true, true) else (b, false)) lo n false =
      Except.ok (((E.drop lo).take n).any c) := by
  intro n
  induction n with
  | zero => intro lo _; simp [iterateBreak]
  | succ n ih =>
    intro lo h
    have hlt : lo < E.length := by omega
    have hd : E.drop lo = E[lo] :: E.drop (lo + 1) := List.drop_eq_getElem_cons hlt
    have hv : vectorAt E lo = Except.ok E[lo] := by
      simp [vectorAt, List.getElem?_eq_getElem hlt]
    rw [iterateBreak, hv, hd, List.take_succ_cons, List.any_cons]
    by_cases hc : c E[lo] = true
    · simp [Except.map, hc]
    · have hc2 : c E[lo] = false := by simpa using hc
      simp only [Except.map, hc2, Bool.false_eq_true, if_false, Bool.false_or]
      exact ih (lo + 1) (by omega)

theorem forLoopBreak_any {α : Type} (E : List α) (c : α → Bool) :
    forLoopBreak 0 E.length (fun k (b : Bool) =>
        (vectorAt E k).map fun e => if c e then (true, true) else (b, false)) false =
      Except.ok (E.any c) := by
  unfold forLoopBreak
  rw [iterateBreak_any E c _ 0 (by simp)]
  simp

theorem findOpenTriangles_eq_filter {K : Type} [LinearOrderedField K] (G : Geom K)
    (U : Shared K) (triangles : List (Triangle K)) (enemy_players : List (Point K)) :
    findOpenTriangles G U triangles enemy_players =
      Except.ok (triangles.filter fun t =>
        !(enemy_players.any (U.contains (shrunkTriangle G U t)))) := by
  have hbody : (fun (i : Nat) (filtered_triangles : List (Triangle K)) =>
      (vectorAt triangles i).bind fun ti =>
        (forLoopBreak 0 enemy_players.length (fun k (containsEnemy : Bool) =>
            (vectorAt enemy_players k).map fun e =>
              if U.contains (shrunkTriangle G U ti) e then (true, true)
              else (containsEnemy, false))
          false).map fun (containsEnemy : Bool) =>
            if !containsEnemy then filtered_triangles ++ [ti] else filtered_triangles) =
      (fun i filtered_triangles => (vectorAt triangles i).map fun ti =>
        (fun acc t => if !(enemy_players.any (U.contains (shrunkTriangle G U t)))
          then acc ++ [t] else acc) filtered_triangles ti) := by
    funext i filtered_triangles
    cases vectorAt triangles i with
    | error e => rfl
    | ok ti =>
      show (forLoopBreak 0 enemy_players.length _ false).map _ = _
      rw [forLoopBreak_any]
      rfl
  have hdef : findOpenTriangles G U triangles enemy_players =
      forLoop 0 triangles.length (fun (i : Nat) (filtered_triangles : List (Triangle K)) =>
      (vectorAt triangles i).bind fun ti =>
        (forLoopBreak 0 enemy_players.length (fun k (containsEnemy : Bool) =>
            (vectorAt enemy_players k).map fun e =>
              if U.contains (shrunkTriangle G U ti) e then (true, true)
              else (containsEnemy, false))
          false).map fun (containsEnemy : Bool) =>
            if !containsEnemy then filtered_triangles ++ [ti] else filtered_triangles) [] :=
    rfl
  rw [hdef, hbody, iterate_vectorAt_all, foldl_push_eq_filter]
  simp

/-- C13: `findOpenTriangles(ts, E)` returns the triangles `t` of `ts`, in their order and
unchanged, for which no point of `E` is contained in the copy of `t` whose vertices are
moved by `2.5 * ROBOT_MAX_RADIUS_METERS` toward the centre of `t`. -/
theorem findOpenTriangles_filter {K : Type} [LinearOrderedField K] (G : Geom K)
    (U : Shared K) (ts : List (Triangle K)) (E : List (Point K)) :
    findOpenTriangles G U ts E =
      Except.ok (ts.filter fun t =>
        decide (∀ e ∈ E, U.contains (shrunkTriangle G U t) e = false)) := by
  rw [findOpenTriangles_eq_filter]
  congr 1
  apply List.filter_congr
  intro t _
  rw [Bool.eq_iff_iff]
  simp [List.any_eq_true]

theorem extremes_of_corners {K : Type} [LinearOrderedField K] (bx fx ny py : K) :
    extremesStep (extremesStep (extremesStep (extremesStep (Extremes.mk bx ny bx ny)
      (Point.mk bx ny)) (Point.mk bx py)) (Point.mk fx ny)) (Point.mk fx py) =
      Extremes.mk (min bx fx) (min ny py) (max bx fx) (max ny py) := by
  simp only [extremesStep]
  congr 1 <;>
    (simp only [min_def, max_def, gt_iff_lt]
     split_ifs <;> first | rfl | linarith)

theorem remove_outofbounds_triangles_eq_filter {K : Type} [LinearOrderedField K]
    (cfg : Config K) (world : World K) (triangles : List (Triangle K)) :
    remove_outofbounds_triangles cfg world triangles =
      Except.ok (triangles.filter fun t =>
        decide ((getTriangleCenter t).x ≤
            max world.ball.position.x
              (world.field.enemyGoal.x - cfg.chip_target_area_inset) ∧
          (getTriangleCenter t).x ≥
            min world.ball.position.x
              (world.field.enemyGoal.x - cfg.chip_target_area_inset) ∧
          (getTriangleCenter t).y ≤
            max (world.field.enemyCornerNeg.y + cfg.chip_target_area_inset)
              (world.field.enemyCornerPos.y - cfg.chip_target_area_inset) ∧
          (getTriangleCenter t).y ≥
            min (world.field.enemyCornerNeg.y + cfg.chip_target_area_inset)
              (world.field.enemyCornerPos.y - cfg.chip_target_area_inset))) := by
  unfold remove_outofbounds_triangles findBestChipTargetArea
  simp only
  have hv : vectorAt [Point.mk world.ball.position.x
        (world.field.enemyCornerNeg.y + cfg.chip_target_area_inset),
      Point.mk world.ball.position.x
        (world.field.enemyCornerPos.y - cfg.chip_target_area_inset),
      Point.mk (world.field.enemyGoal.x - cfg.chip_target_area_inset)
        (world.field.enemyCornerNeg.y + cfg.chip_target_area_inset),
      Point.mk (world.field.enemyGoal.x - cfg.chip_target_area_inset)
        (world.field.enemyCornerPos.y - cfg.chip_target_area_inset)] 0 =
      Except.ok (Point.mk world.ball.position.x
        (world.field.enemyCornerNeg.y + cfg.chip_target_area_inset)) := rfl
  rw [hv]
  simp only [Except.bind]
  rw [iterate_vectorAt_all]
  simp only [List.foldl_cons, List.foldl_nil, extremes_of_corners]
  have h := iterate_vectorAt_all triangles
    (fun (acc : List (Triangle K)) t =>
      if (getTriangleCenter t).x ≤
            max world.ball.position.x
              (world.field.enemyGoal.x - cfg.chip_target_area_inset) ∧
          (getTriangleCenter t).x ≥
            min world.ball.position.x
              (world.field.enemyGoal.x - cfg.chip_target_area_inset) ∧
          (getTriangleCenter t).y ≤
            max (world.field.enemyCornerNeg.y + cfg.chip_target_area_inset)
              (world.field.enemyCornerPos.y - cfg.chip_target_area_inset) ∧
          (getTriangleCenter t).y ≥
            min (world.field.enemyCornerNeg.y + cfg.chip_target_area_inset)
              (world.field.enemyCornerPos.y - cfg.chip_target_area_inset)
      then acc ++ [t] else acc) []
  rw [h]
  have h2 := foldl_push_eq_filter (fun t : Triangle K =>
      decide ((getTriangleCenter t).x ≤
            max world.ball.position.x
              (world.field.enemyGoal.x - cfg.chip_target_area_inset) ∧
          (getTriangleCenter t).x ≥
            min world.ball.position.x
              (world.field.enemyGoal.x - cfg.chip_target_area_inset) ∧
          (getTriangleCenter t).y ≤
            max (world.field.enemyCornerNeg.y + cfg.chip_target_area_inset)
              (world.field.enemyCornerPos.y - cfg.chip_target_area_inset) ∧
          (getTriangleCenter t).y ≥
            min (world.field.enemyCornerNeg.y + cfg.chip_target_area_inset)
              (world.field.enemyCornerPos.y - cfg.chip_target_area_inset))) triangles []
  simp only [decide_eq_true_eq, List.nil_append] at h2
  rw [h2]

/-- C14: `remove_outofbounds_triangles` returns the triangles of `ts`, in their order,
whose centre `(cx, cy)` satisfies
`min(ballX, goalX - inset) <= cx <= max(ballX, goalX - inset)` and
`min(negCornerY + inset, posCornerY - inset) <= cy <= max(negCornerY + inset,
posCornerY - inset)`, the bounds being the extremes of the four corners returned by
`findBestChipTargetArea`; the comparisons are not strict, so a centre on an edge of the
rectangle is kept. -/
theorem remove_outofbounds_triangles_filter {K : Type} [LinearOrderedField K]
    (cfg : Config K) (world : World K) (ts : List (Triangle K)) :
    findBestChipTargetArea world cfg.chip_target_area_inset =
      [Point.mk world.ball.position.x
          (world.field.enemyCornerNeg.y + cfg.chip_target_area_inset),
        Point.mk world.ball.position.x
          (world.field.enemyCornerPos.y - cfg.chip_target_area_inset),
        Point.mk (world.field.enemyGoal.x - cfg.chip_target_area_inset)
          (world.field.enemyCornerNeg.y + cfg.chip_target_area_inset),
        Point.mk (world.field.enemyGoal.x - cfg.chip_target_area_inset)
          (world.field.enemyCornerPos.y - cfg.chip_target_area_inset)] ∧
    remove_outofbounds_triangles cfg world ts =
      Except.ok (ts.filter fun t =>
        decide (
          min world.ball.position.x (world.field.enemyGoal.x - cfg.chip_target_area_inset) ≤
            (getTriangleCenter t).x ∧
          (getTriangleCenter t).x ≤
            max world.ball.position.x (world.field.enemyGoal.x - cfg.chip_target_area_inset) ∧
          min (world.field.enemyCornerNeg.y + cfg.chip_target_area_inset)
              (world.field.enemyCornerPos.y - cfg.chip_target_area_inset) ≤
            (getTriangleCenter t).y ∧
          (getTriangleCenter t).y ≤
            max (world.field.enemyCornerNeg.y + cfg.chip_target_area_inset)
              (world.field.enemyCornerPos.y - cfg.chip_target_area_inset))) := by
  refine ⟨rfl, ?_⟩
  rw [remove_outofbounds_triangles_eq_filter]
  congr 1
  apply List.filter_congr
  intro t _
  rw [Bool.eq_iff_iff]
  simp only [decide_eq_true_eq, ge_iff_le]
  tauto


/-! ## Vertex order -/

/-- In exact arithmetic the `remainder` by a positive divisor `d` lies in `[-d/2, d/2]`
and differs from the angle by an integer multiple of `d`. -/
theorem remainder_range {K : Type} [LinearOrderedField K] [FloorRing K] (x d : K)
    (hd : 0 < d) :
    -(d / 2) ≤ ((Angle.mk x).remainder (Angle.mk d)).toRadians ∧
    ((Angle.mk x).remainder (Angle.mk d)).toRadians ≤ d / 2 ∧
    ∃ k : Int, ((Angle.mk x).remainder (Angle.mk d)).toRadians = x - (k : K) * d := by
  unfold Angle.remainder Angle.ofRadians Angle.toRadians
  simp only
  have hx : x = x / d * d := by field_simp
  refine ⟨?_, ?_, ⟨_, rfl⟩⟩
  · by_cases hq : x / d ≥ 0
    · rw [if_pos hq]
      have h0 : (0 : K) ≤ x / d + 1 / 2 := by linarith
      unfold castLong
      rw [if_pos h0]
      have hf : ((Int.floor (x / d + 1 / 2) : Int) : K) ≤ x / d + 1 / 2 := Int.floor_le _
      have := mul_le_mul_of_nonneg_right hf (le_of_lt hd)
      nlinarith
    · rw [if_neg hq]
      have h0 : ¬ (0 : K) ≤ x / d - 1 / 2 := by
        intro h
        exact hq (by linarith)
      unfold castLong
      rw [if_neg h0]
      have hf : ((Int.ceil (x / d - 1 / 2) : Int) : K) < x / d - 1 / 2 + 1 :=
        Int.ceil_lt_add_one _
      have := mul_lt_mul_of_pos_right hf hd
      nlinarith
  · by_cases hq : x / d ≥ 0
    · rw [if_pos hq]
      have h0 : (0 : K) ≤ x / d + 1 / 2 := by linarith
      unfold castLong
      rw [if_pos h0]
      have hf : x / d + 1 / 2 < ((Int.floor (x / d + 1 / 2) : Int) : K) + 1 :=
        Int.lt_floor_add_one _
      have := mul_lt_mul_of_pos_right hf hd
      nlinarith
    · rw [if_neg hq]
      have h0 : ¬ (0 : K) ≤ x / d - 1 / 2 := by
        intro h
        exact hq (by linarith)
      unfold castLong
      rw [if_neg h0]
      have hf : x / d - 1 / 2 ≤ ((Int.ceil (x / d - 1 / 2) : Int) : K) := Int.le_ceil _
      have := mul_le_mul_of_nonneg_right hf (le_of_lt hd)
      nlinarith

theorem angleMod_zero {K : Type} [LinearOrderedField K] [FloorRing K] (G : Geom K) :
    (Angle.mk (0 : K)).angleMod G = Angle.mk 0 := by
  unfold Angle.angleMod Angle.remainder Angle.ofRadians Angle.toRadians Angle.full castLong
  simp only [zero_div, ge_iff_le, le_refl, if_true, zero_add]
  have h0 : (0 : K) ≤ 1 / 2 := by norm_num
  rw [if_pos h0]
  have hf : Int.floor (1 / 2 : K) = 0 := by
    rw [Int.floor_eq_iff]
    constructor <;> norm_num
  rw [hf]
  simp

theorem angleMod_full {K : Type} [LinearOrderedField K] [FloorRing K] (G : Geom K)
    (hpi : 0 < G.pi) : (Angle.full G).angleMod G = Angle.mk 0 := by
  unfold Angle.angleMod Angle.remainder Angle.ofRadians Angle.toRadians Angle.full castLong
  simp only
  have hne : (2 * G.pi) ≠ 0 := by positivity
  rw [div_self hne]
  have h1 : (1 : K) ≥ 0 := by norm_num
  rw [if_pos h1]
  have h0 : (0 : K) ≤ 1 + 1 / 2 := by norm_num
  rw [if_pos h0]
  have hf : Int.floor (1 + 1 / 2 : K) = 1 := by
    rw [Int.floor_eq_iff]
    constructor <;> norm_num
  rw [hf]
  simp

/-- C20, evaluated at a failing input: for the angles `0` and `2π` (`M_PI` being
positive) both `x == y` and `x != y` are true. -/
theorem operatorNe_not_negation_failing {K : Type} [LinearOrderedField K] [FloorRing K]
    (G : Geom K) (hpi : 0 < G.pi) :
    Angle.operatorEq G (Angle.mk 0) (Angle.full G) = true ∧
    Angle.operatorNe (Angle.mk 0) (Angle.full G) = true := by
  constructor
  · unfold Angle.operatorEq
    rw [angleMod_zero, angleMod_full G hpi]
    unfold Angle.minDiff Angle.clamp
    have hs : (Angle.mk (0 : K) - Angle.mk 0) = Angle.mk 0 := by
      show Angle.ofRadians ((0 : K) - 0) = Angle.mk 0
      simp [Angle.ofRadians]
    rw [hs]
    have hz := angleMod_zero G
    unfold Angle.angleMod at hz
    rw [hz]
    simp [Angle.abs, Angle.toRadians, Angle.ofRadians, Angle.EPSILON]
  · unfold Angle.operatorNe Angle.full Angle.toRadians
    simp only [decide_eq_true_eq]
    intro h
    linarith

/-- Witness for the evaluation of C20, with `355/113` for `M_PI`. -/
theorem operatorNe_not_negation_failing_witness :
    (0 : ℚ) < (Geom.mk Rat.sqrt (355 / 113) fun _ _ _ => Angle.mk 0).pi ∧
    Angle.operatorEq (Geom.mk Rat.sqrt (355 / 113) fun _ _ _ => Angle.mk 0) (Angle.mk 0)
      (Angle.full (Geom.mk Rat.sqrt (355 / 113) fun _ _ _ => Angle.mk 0)) = true ∧
    Angle.operatorNe (Angle.mk 0)
      (Angle.full (Geom.mk Rat.sqrt (355 / 113) fun _ _ _ => Angle.mk 0)) = true :=
  have hpi : (0 : ℚ) < (Geom.mk Rat.sqrt (355 / 113) fun _ _ _ => Angle.mk 0).pi := by
    show (0 : ℚ) < 355 / 113
    norm_num
  ⟨hpi, operatorNe_not_negation_failing
    (Geom.mk Rat.sqrt (355 / 113) fun _ _ _ => Angle.mk 0) hpi⟩


/-! ## The whole evaluation -/

theorem getLargestValidTriangle_last {K : Type} [LinearOrderedField K] [FloorRing K]
    (G : Geom K) (l : List (Triangle K)) (t : Triangle K)
    (min_area min_edge_len min_edge_angle : K)
    (hv : IsValidTriangle G min_area min_edge_len min_edge_angle t)
    (hmax : ∀ u ∈ l, getTriangleArea u ≤ getTriangleArea t) :
    getLargestValidTriangle G (l ++ [t]) min_area min_edge_len min_edge_angle =
      Except.ok (some t) := by
  cases l with
  | nil => exact getLargestValidTriangle_singleton G t _ _ _
  | cons first rest =>
    rw [List.cons_append, getLargestValidTriangle_cons, ← List.cons_append,
      List.foldl_append, List.foldl_cons, List.foldl_nil, largestStep_eq]
    obtain ⟨i1, _, i3, _⟩ := foldl_largestStep_inv G min_area min_edge_len min_edge_angle
      (first :: rest) (first, getTriangleArea first) rfl
    have hle : ((first :: rest).foldl (largestStep G min_area min_edge_len min_edge_angle)
        (first, getTriangleArea first)).2 ≤ getTriangleArea t := by
      rw [i1]
      rcases i3 with e | m
      · rw [e]
        exact hmax first (List.mem_cons_self _ _)
      · exact hmax _ m
    rw [if_pos ⟨hle, hv⟩]

/-- C15, evaluated at a failing input: a field with the enemy goal at `(6,0)` and the
enemy corners at `(6,-4.5)` and `(6,4.5)`, no enemy robot, the ball at `(1.2,0.9)`,
inset `0.3`, `power_downscale = 0.85`, `max_chip_power = 10` and thresholds `0`. The ball
is not beyond the goal line less the inset, and the whole evaluation returns the target
`(0.68, 0.51)`, whose x-coordinate is smaller than that of the ball. -/
theorem findTarget_behind_ball_failing (G : Geom ℚ) (U : Shared ℚ)
    (hnn : ∀ q, 0 ≤ G.sqrt q) (hpi : 0 < G.pi) (h1 : G.sqrt 1 = 1)
    (h2 : G.sqrt (25 / 4) = 5 / 2) (h3 : G.sqrt (169 / 400) = 13 / 20) :
    (6 / 5 : ℚ) ≤ 6 - 3 / 10 ∧
    findTargetPointForIndirectChipAndChaseWorld G U (Config.mk 0 0 (17 / 20) 10 (3 / 10))
        (World.mk (Field.mk (Point.mk 6 0) (Point.mk 6 (-9 / 2)) (Point.mk 6 (9 / 2)))
          (Ball.mk (Point.mk (6 / 5) (9 / 10))) (Team.mk [] none)) =
      Except.ok (some (Point.mk (17 / 25) (51 / 100))) ∧
    (17 / 25 : ℚ) < 6 / 5 := by
  refine ⟨by norm_num, ?_, by norm_num⟩
  unfold findTargetPointForIndirectChipAndChaseWorld
  simp only [List.foldl_nil]
  have hall : getAllTrianglesBetweenEnemyPlayers
      (Field.mk (Point.mk (6 : ℚ) 0) (Point.mk 6 (-9 / 2)) (Point.mk 6 (9 / 2))) [] =
      Except.ok [Triangle.mk (Point.mk 6 (-9 / 2)) (Point.mk 6 (9 / 2)) (Point.mk 0 (9 / 2)),
        Triangle.mk (Point.mk 6 (-9 / 2)) (Point.mk 6 (9 / 2)) (Point.mk 0 (-9 / 2)),
        Triangle.mk (Point.mk 6 (-9 / 2)) (Point.mk 0 (9 / 2)) (Point.mk 0 (-9 / 2)),
        Triangle.mk (Point.mk 6 (9 / 2)) (Point.mk 0 (9 / 2)) (Point.mk 0 (-9 / 2))] := rfl
  rw [hall]
  simp only [Except.bind]
  rw [findOpenTriangles_eq_filter]
  simp only [Except.bind, List.any_nil, Bool.not_false, List.filter_true]
  rw [remove_outofbounds_triangles_eq_filter]
  have hfilter : ∀ t ∈ [Triangle.mk (Point.mk (6 : ℚ) (-9 / 2)) (Point.mk 6 (9 / 2))
          (Point.mk 0 (9 / 2)),
        Triangle.mk (Point.mk 6 (-9 / 2)) (Point.mk 6 (9 / 2)) (Point.mk 0 (-9 / 2)),
        Triangle.mk (Point.mk 6 (-9 / 2)) (Point.mk 0 (9 / 2)) (Point.mk 0 (-9 / 2)),
        Triangle.mk (Point.mk 6 (9 / 2)) (Point.mk 0 (9 / 2)) (Point.mk 0 (-9 / 2))],
      decide ((getTriangleCenter t).x ≤ max (6 / 5 : ℚ) (6 - 3 / 10) ∧
        (getTriangleCenter t).x ≥ min (6 / 5 : ℚ) (6 - 3 / 10) ∧
        (getTriangleCenter t).y ≤ max (-9 / 2 + 3 / 10 : ℚ) (9 / 2 - 3 / 10) ∧
        (getTriangleCenter t).y ≥ min (-9 / 2 + 3 / 10 : ℚ) (9 / 2 - 3 / 10)) = true := by
    intro t ht
    simp only [List.mem_cons, List.mem_singleton, List.not_mem_nil, or_false] at ht
    rcases ht with rfl | rfl | rfl | rfl <;>
      norm_num [getTriangleCenter, min_def, max_def]
  rw [List.filter_eq_self.mpr hfilter]
  simp only [Except.bind]
  have hbcd : IsValidTriangle G 0 0 0
      (Triangle.mk (Point.mk 6 (9 / 2)) (Point.mk 0 (9 / 2)) (Point.mk 0 (-9 / 2))) :=
    isValidTriangle_zero G hnn hpi _
  have hsel := getLargestValidTriangle_last G
    [Triangle.mk (Point.mk (6 : ℚ) (-9 / 2)) (Point.mk 6 (9 / 2)) (Point.mk 0 (9 / 2)),
      Triangle.mk (Point.mk 6 (-9 / 2)) (Point.mk 6 (9 / 2)) (Point.mk 0 (-9 / 2)),
      Triangle.mk (Point.mk 6 (-9 / 2)) (Point.mk 0 (9 / 2)) (Point.mk 0 (-9 / 2))]
    (Triangle.mk (Point.mk 6 (9 / 2)) (Point.mk 0 (9 / 2)) (Point.mk 0 (-9 / 2))) 0 0 0 hbcd
    (by
      intro u hu
      simp only [List.mem_cons, List.mem_singleton, List.not_mem_nil, or_false] at hu
      rcases hu with rfl | rfl | rfl <;> norm_num [getTriangleArea, abs_of_pos, abs_of_neg])
  simp only [List.cons_append, List.nil_append] at hsel
  rw [findTarget_of_selected G (Config.mk 0 0 (17 / 20) 10 (3 / 10)) _ _ _ (by simp) hsel]
  have hc : getTriangleCenter
      (Triangle.mk (Point.mk (6 : ℚ) (9 / 2)) (Point.mk 0 (9 / 2)) (Point.mk 0 (-9 / 2))) =
      Point.mk 2 (3 / 2) := by
    norm_num [getTriangleCenter]
  rw [hc]
  have hd : (Point.mk (2 : ℚ) (3 / 2) - Point.mk (6 / 5) (9 / 10)).len G = 1 := by
    have e : (Point.mk (2 : ℚ) (3 / 2) - Point.mk (6 / 5) (9 / 10)) =
        Point.mk (4 / 5) (3 / 5) := by
      norm_num [Point.sub_def]
    rw [e]
    have e2 : (4 / 5 : ℚ) * (4 / 5) + 3 / 5 * (3 / 5) = 1 := by norm_num
    simp only [Point.len, e2, h1]
  have hlc : (Point.mk (2 : ℚ) (3 / 2)).len G = 5 / 2 := by
    have e2 : (2 : ℚ) * 2 + 3 / 2 * (3 / 2) = 25 / 4 := by norm_num
    simp only [Point.len, e2, h2]
  have hn : (Point.mk (2 : ℚ) (3 / 2)).norm G (1 * (17 / 20)) =
      Point.mk (17 / 25) (51 / 100) := by
    unfold Point.norm
    rw [hlc]
    norm_num
  have hl : (Point.mk (17 / 25 : ℚ) (51 / 100) - Point.mk (6 / 5) (9 / 10)).len G =
      13 / 20 := by
    have e : (Point.mk (17 / 25 : ℚ) (51 / 100) - Point.mk (6 / 5) (9 / 10)) =
        Point.mk (-13 / 25) (-39 / 100) := by
      norm_num [Point.sub_def]
    rw [e]
    have e2 : (-13 / 25 : ℚ) * (-13 / 25) + -39 / 100 * (-39 / 100) = 169 / 400 := by
      norm_num
    simp only [Point.len, e2, h3]
  simp only [hd, hn, hl]
  norm_num

/-- Witness for the evaluation of C15, with the rational square root of Mathlib, which is
non-negative and exact on squares, a `contains` that is never true and a robot radius of
`0.09`. -/
theorem findTarget_behind_ball_failing_witness :
    (∀ q, 0 ≤ Rat.sqrt q) ∧ (0 : ℚ) < 355 / 113 ∧ Rat.sqrt 1 = 1 ∧
    Rat.sqrt (25 / 4) = 5 / 2 ∧ Rat.sqrt (169 / 400) = 13 / 20 ∧
    findTargetPointForIndirectChipAndChaseWorld
        (Geom.mk Rat.sqrt (355 / 113) fun _ _ _ => Angle.mk 0)
        (Shared.mk (fun _ _ => false) (9 / 100)) (Config.mk 0 0 (17 / 20) 10 (3 / 10))
        (World.mk (Field.mk (Point.mk 6 0) (Point.mk 6 (-9 / 2)) (Point.mk 6 (9 / 2)))
          (Ball.mk (Point.mk (6 / 5) (9 / 10))) (Team.mk [] none)) =
      Except.ok (some (Point.mk (17 / 25) (51 / 100))) :=
  have hpi : (0 : ℚ) < 355 / 113 := by norm_num
  have s1 : Rat.sqrt 1 = 1 := by rw [show (1 : ℚ) = 1 * 1 by norm_num, Rat.sqrt_eq]; norm_num
  have s2 : Rat.sqrt (25 / 4) = 5 / 2 := by
    rw [show (25 / 4 : ℚ) = 5 / 2 * (5 / 2) by norm_num, Rat.sqrt_eq]
    exact abs_of_pos (by norm_num)
  have s3 : Rat.sqrt (169 / 400) = 13 / 20 := by
    rw [show (169 / 400 : ℚ) = 13 / 20 * (13 / 20) by norm_num, Rat.sqrt_eq]
    exact abs_of_pos (by norm_num)
  ⟨fun q => Rat.sqrt_nonneg q, hpi, s1, s2, s3,
    (findTarget_behind_ball_failing (Geom.mk Rat.sqrt (355 / 113) fun _ _ _ => Angle.mk 0)
      (Shared.mk (fun _ _ => false) (9 / 100)) (fun q => Rat.sqrt_nonneg q) hpi s1 s2 s3).2.1⟩

/-! ## The adjusted triangle -/

theorem Point.norm_eq_smul {K : Type} [LinearOrderedField K] (G : Geom K) (v : Point K)
    (l : K) :
    (v.len G = 0 ∧ v.norm G l = Point.mk 0 0) ∨
    (v.len G ≠ 0 ∧ v.norm G l = Point.mk (l / v.len G * v.x) (l / v.len G * v.y)) := by
  by_cases h : v.len G = 0
  · left
    exact ⟨h, by unfold Point.norm; rw [if_pos h]⟩
  · right
    exact ⟨h, Point.norm_of_len_ne_zero G v l h⟩

theorem moved_vertex_in_triangle {K : Type} [LinearOrderedField K] (p q r mv : Point K)
    (lam : K) (h0 : 0 ≤ lam) (h1 : lam ≤ 3 / 2)
    (hx : mv.x = p.x + lam * ((p.x + q.x + r.x) / 3 - p.x))
    (hy : mv.y = p.y + lam * ((p.y + q.y + r.y) / 3 - p.y)) :
    ∃ a b c : K, 0 ≤ a ∧ 0 ≤ b ∧ 0 ≤ c ∧ a + b + c = 1 ∧
      mv.x = a * p.x + b * q.x + c * r.x ∧ mv.y = a * p.y + b * q.y + c * r.y := by
  refine ⟨1 - 2 * lam / 3, lam / 3, lam / 3, by linarith, by linarith, by linarith, by ring,
    ?_, ?_⟩
  · rw [hx]; ring
  · rw [hy]; ring

theorem Point.sub_self_eq {K : Type} [LinearOrderedField K] (v : Point K) :
    v - v = Point.mk 0 0 := by
  simp [Point.sub_def]

theorem Point.norm_zero_vector {K : Type} [LinearOrderedField K] (G : Geom K) (l : K) :
    (Point.mk (0 : K) 0).norm G l = Point.mk 0 0 := by
  unfold Point.norm
  split_ifs
  · rfl
  · simp

theorem Point.add_zero_vector {K : Type} [LinearOrderedField K] (v : Point K) :
    v + Point.mk 0 0 = v := by
  cases v
  simp [Point.add_def]

/-- C24: when a vertex of a triangle coincides with the centre of the triangle (as when the
three vertices are equal), the adjusted vertex built by `findOpenTriangles` equals the
original vertex: the rescaled zero vector is the zero vector. -/
theorem shrunk_vertex_at_centre {K : Type} [LinearOrderedField K] (G : Geom K)
    (U : Shared K) (t : Triangle K) (i : Fin 3) (h : getTriangleCenter t = t.vertex i) :
    (shrunkTriangle G U t).vertex i = t.vertex i := by
  have key : ∀ v : Point K, getTriangleCenter t = v →
      v + (getTriangleCenter t - v).norm G (5 / 2 * U.ROBOT_MAX_RADIUS_METERS) = v := by
    intro v hv
    rw [hv, Point.sub_self_eq, Point.norm_zero_vector, Point.add_zero_vector]
  fin_cases i
  · exact key t.p0 h
  · exact key t.p1 h
  · exact key t.p2 h

/-- Witness for C24: the triangle whose three vertices are `(1,2)`. -/
theorem shrunk_vertex_at_centre_witness :
    getTriangleCenter (Triangle.mk (Point.mk (1 : ℚ) 2) (Point.mk 1 2) (Point.mk 1 2)) =
      (Triangle.mk (Point.mk (1 : ℚ) 2) (Point.mk 1 2) (Point.mk 1 2)).vertex 0 ∧
    (shrunkTriangle (Geom.mk Rat.sqrt (355 / 113) fun _ _ _ => Angle.mk 0)
        (Shared.mk (fun _ _ => false) (9 / 100))
        (Triangle.mk (Point.mk (1 : ℚ) 2) (Point.mk 1 2) (Point.mk 1 2))).vertex 0 =
      (Triangle.mk (Point.mk (1 : ℚ) 2) (Point.mk 1 2) (Point.mk 1 2)).vertex 0 :=
  have h : getTriangleCenter
      (Triangle.mk (Point.mk (1 : ℚ) 2) (Point.mk 1 2) (Point.mk 1 2)) =
      (Triangle.mk (Point.mk (1 : ℚ) 2) (Point.mk 1 2) (Point.mk 1 2)).vertex 0 := by
    norm_num [getTriangleCenter, Triangle.vertex]
  ⟨h, shrunk_vertex_at_centre _ _ _ 0 h⟩

theorem moved_toward_centre_in_triangle {K : Type} [LinearOrderedField K] (G : Geom K)
    (p q r c : Point K) (l : K) (hl : 0 ≤ l)
    (hcx : c.x = (p.x + q.x + r.x) / 3) (hcy : c.y = (p.y + q.y + r.y) / 3)
    (hbig : (c - p).len G = 0 ∨ l ≤ 3 / 2 * (c - p).len G) :
    ∃ a b e : K, 0 ≤ a ∧ 0 ≤ b ∧ 0 ≤ e ∧ a + b + e = 1 ∧
      (p + (c - p).norm G l).x = a * p.x + b * q.x + e * r.x ∧
      (p + (c - p).norm G l).y = a * p.y + b * q.y + e * r.y := by
  rcases Point.norm_eq_smul G (c - p) l with ⟨_, hn⟩ | ⟨hne, hn⟩
  · rw [hn]
    exact moved_vertex_in_triangle p q r _ 0 (le_refl _) (by norm_num)
      (by simp [Point.add_def]) (by simp [Point.add_def])
  · rw [hn]
    have hlen : l ≤ 3 / 2 * (c - p).len G := by
      rcases hbig with h | h
      · exact absurd h hne
      · exact h
    have hpos : 0 < (c - p).len G := by
      rcases lt_or_gt_of_ne hne with hneg | hpos
      · linarith
      · exact hpos
    exact moved_vertex_in_triangle p q r _ (l / (c - p).len G)
      (div_nonneg hl (le_of_lt hpos)) ((div_le_iff₀ hpos).mpr hlen)
      (by simp [Point.add_def, Point.sub_def, hcx])
      (by simp [Point.add_def, Point.sub_def, hcy])

/-- C23, counterexample: for the triangle `(0,0), (0.18,0), (0,0.24)` and a robot radius
of `0.09`, the first vertex is at distance `0.1` from the centre `(0.06,0.08)`; moved by
`0.225` toward the centre it becomes `(0.135,0.18)`, which passes beyond the opposite side
and is not a point of the closed triangle. -/
theorem shrunk_vertex_outside_counterexample :
    (shrunkTriangle (Geom.mk Rat.sqrt (355 / 113) fun _ _ _ => Angle.mk 0)
        (Shared.mk (fun _ _ => false) (9 / 100))
        (Triangle.mk (Point.mk 0 0) (Point.mk (9 / 50) 0) (Point.mk 0 (6 / 25)))).p0 =
      Point.mk (27 / 200) (9 / 50) ∧
    ¬ InClosedTriangle (Triangle.mk (Point.mk 0 0) (Point.mk (9 / 50) 0) (Point.mk 0 (6 / 25)))
      ((shrunkTriangle (Geom.mk Rat.sqrt (355 / 113) fun _ _ _ => Angle.mk 0)
        (Shared.mk (fun _ _ => false) (9 / 100))
        (Triangle.mk (Point.mk 0 0) (Point.mk (9 / 50) 0) (Point.mk 0 (6 / 25)))).p0) := by
  have hs : Rat.sqrt (1 / 100) = 1 / 10 := by
    rw [show (1 / 100 : ℚ) = 1 / 10 * (1 / 10) by norm_num, Rat.sqrt_eq]
    exact abs_of_pos (by norm_num)
  have hv : (shrunkTriangle (Geom.mk Rat.sqrt (355 / 113) fun _ _ _ => Angle.mk 0)
        (Shared.mk (fun _ _ => false) (9 / 100))
        (Triangle.mk (Point.mk 0 0) (Point.mk (9 / 50) 0) (Point.mk 0 (6 / 25)))).p0 =
      Point.mk (27 / 200) (9 / 50) := by
    have hc : getTriangleCenter
        (Triangle.mk (Point.mk (0 : ℚ) 0) (Point.mk (9 / 50) 0) (Point.mk 0 (6 / 25))) =
        Point.mk (3 / 50) (2 / 25) := by
      norm_num [getTriangleCenter]
    have hl : (Point.mk (3 / 50 : ℚ) (2 / 25)).len
        (Geom.mk Rat.sqrt (355 / 113) fun _ _ _ => Angle.mk 0) = 1 / 10 := by
      have e : (3 / 50 : ℚ) * (3 / 50) + 2 / 25 * (2 / 25) = 1 / 100 := by norm_num
      simp only [Point.len, e, hs]
    have hd : (Point.mk (3 / 50 : ℚ) (2 / 25) - Point.mk 0 0) = Point.mk (3 / 50) (2 / 25) := by
      simp [Point.sub_def]
    simp only [shrunkTriangle, hc, hd]
    unfold Point.norm
    rw [hl]
    norm_num [Point.add_def]
  refine ⟨hv, ?_⟩
  rw [hv]
  rintro ⟨a, b, c, ha, hb, hc, hsum, hx, hy⟩
  simp only at hx hy
  linarith

/-- C23, amended: for a robot radius that is not negative and a vertex of the triangle
whose distance `d` to the centre satisfies `2.5 * ROBOT_MAX_RADIUS_METERS <= 1.5 * d` (or
`d = 0`), the adjusted vertex built by `findOpenTriangles` is a point of the closed
original triangle. -/
theorem shrunk_vertex_in_triangle {K : Type} [LinearOrderedField K] (G : Geom K)
    (U : Shared K) (t : Triangle K) (i : Fin 3) (hR : 0 ≤ U.ROBOT_MAX_RADIUS_METERS)
    (hbig : (getTriangleCenter t - t.vertex i).len G = 0 ∨
      5 / 2 * U.ROBOT_MAX_RADIUS_METERS ≤
        3 / 2 * (getTriangleCenter t - t.vertex i).len G) :
    InClosedTriangle t ((shrunkTriangle G U t).vertex i) := by
  have hl : 0 ≤ 5 / 2 * U.ROBOT_MAX_RADIUS_METERS := by positivity
  obtain ⟨p, q, r⟩ := t
  fin_cases i
  · obtain ⟨a, b, e, ha, hb, he, hsum, hx, hy⟩ := moved_toward_centre_in_triangle G p q r
      (getTriangleCenter (Triangle.mk p q r)) _ hl rfl rfl hbig
    exact ⟨a, b, e, ha, hb, he, hsum, hx, hy⟩
  · obtain ⟨a, b, e, ha, hb, he, hsum, hx, hy⟩ := moved_toward_centre_in_triangle G q p r
      (getTriangleCenter (Triangle.mk p q r)) _ hl
      (by simp only [getTriangleCenter]; ring) (by simp only [getTriangleCenter]; ring) hbig
    exact ⟨b, a, e, hb, ha, he, by linarith, hx.trans (by simp only; ring),
      hy.trans (by simp only; ring)⟩
  · obtain ⟨a, b, e, ha, hb, he, hsum, hx, hy⟩ := moved_toward_centre_in_triangle G r p q
      (getTriangleCenter (Triangle.mk p q r)) _ hl
      (by simp only [getTriangleCenter]; ring) (by simp only [getTriangleCenter]; ring) hbig
    exact ⟨b, e, a, hb, he, ha, by linarith, hx.trans (by simp only; ring),
      hy.trans (by simp only; ring)⟩

/-- Witness for the amended C23: the triangle `(0,0), (9,0), (0,12)`, whose first vertex is
at distance `5` from the centre `(3,4)`, and a robot radius of `0.09`. -/
theorem shrunk_vertex_in_triangle_witness :
    (0 : ℚ) ≤ (Shared.mk (fun (_ : Triangle ℚ) (_ : Point ℚ) => false) (9 / 100)).ROBOT_MAX_RADIUS_METERS ∧
    InClosedTriangle (Triangle.mk (Point.mk (0 : ℚ) 0) (Point.mk 9 0) (Point.mk 0 12))
      ((shrunkTriangle (Geom.mk Rat.sqrt (355 / 113) fun _ _ _ => Angle.mk 0)
        (Shared.mk (fun _ _ => false) (9 / 100))
        (Triangle.mk (Point.mk (0 : ℚ) 0) (Point.mk 9 0) (Point.mk 0 12))).vertex 0) :=
  have hR : (0 : ℚ) ≤
      (Shared.mk (fun (_ : Triangle ℚ) (_ : Point ℚ) => false)
        (9 / 100)).ROBOT_MAX_RADIUS_METERS := by
    show (0 : ℚ) ≤ 9 / 100
    norm_num
  have hs : Rat.sqrt 25 = 5 := by
    rw [show (25 : ℚ) = 5 * 5 by norm_num, Rat.sqrt_eq]
    exact abs_of_pos (by norm_num)
  have hlen : (getTriangleCenter
      (Triangle.mk (Point.mk (0 : ℚ) 0) (Point.mk 9 0) (Point.mk 0 12)) -
      (Triangle.mk (Point.mk (0 : ℚ) 0) (Point.mk 9 0) (Point.mk 0 12)).vertex 0).len
      (Geom.mk Rat.sqrt (355 / 113) fun _ _ _ => Angle.mk 0) = 5 := by
    have e : (getTriangleCenter
        (Triangle.mk (Point.mk (0 : ℚ) 0) (Point.mk 9 0) (Point.mk 0 12)) -
        (Triangle.mk (Point.mk (0 : ℚ) 0) (Point.mk 9 0) (Point.mk 0 12)).vertex 0) =
        Point.mk 3 4 := by
      norm_num [getTriangleCenter, Triangle.vertex, Point.sub_def]
    rw [e]
    have e2 : (3 : ℚ) * 3 + 4 * 4 = 25 := by norm_num
    simp only [Point.len, e2, hs]
  ⟨hR, shrunk_vertex_in_triangle (Geom.mk Rat.sqrt (355 / 113) fun _ _ _ => Angle.mk 0)
    (Shared.mk (fun _ _ => false) (9 / 100))
    (Triangle.mk (Point.mk (0 : ℚ) 0) (Point.mk 9 0) (Point.mk 0 12)) 0 hR
    (Or.inr (by rw [hlen]; show (5 / 2 : ℚ) * (9 / 100) ≤ 3 / 2 * 5; norm_num))⟩

/-! ## Loop bounds of the triple loop -/

/-- C25: for every list of enemy positions (of a size below `2 ^ 32`, so that the
`unsigned int` counters do not wrap either), the point list built in
`getAllTrianglesBetweenEnemyPlayers` has at least four elements, the `size_t` loop bounds
`size - 2` and `size - 1` do not wrap around, the function returns (no read is out of
range), and every index triple it uses satisfies `i < j < k < size`. -/
theorem getAllTriangles_loop_bounds {K : Type} [Zero K] (field : Field K)
    (enemy_players : List (Point K)) (hsize : enemy_players.length + 4 < 2 ^ 32) :
    4 ≤ (allPoints field enemy_players).length ∧
    sizeSub (allPoints field enemy_players).length 2 + 2 =
      (allPoints field enemy_players).length ∧
    sizeSub (allPoints field enemy_players).length 1 + 1 =
      (allPoints field enemy_players).length ∧
    (∃ out, getAllTrianglesBetweenEnemyPlayers field enemy_players = Except.ok out ∧
      List.Forall₂ (TriangleAt (allPoints field enemy_players)) out
        (indexTriples (allPoints field enemy_players).length)) ∧
    ∀ i j k, (i, j, k) ∈ indexTriples (allPoints field enemy_players).length →
      i < j ∧ j < k ∧ k < (allPoints field enemy_players).length ∧ k < 2 ^ 32 := by
  have hl : (allPoints field enemy_players).length = enemy_players.length + 4 := by
    simp [allPoints]
  have h64 : enemy_players.length + 4 < 2 ^ 64 :=
    lt_trans hsize (by norm_num)
  rw [hl]
  refine ⟨by omega, ?_, ?_, getAllTriangles_spec field enemy_players h64, ?_⟩
  · rw [sizeSub_of_le (by omega) h64]
    omega
  · rw [sizeSub_of_le (by omega) h64]
    omega
  · intro i j k h
    obtain ⟨h1, h2, h3⟩ := (mem_indexTriples _ i j k).mp h
    exact ⟨h1, h2, h3, lt_trans h3 hsize⟩

/-- Witness for C25: the empty list of enemy positions, on the field of the unit test. -/
theorem getAllTriangles_loop_bounds_witness :
    ([] : List (Point ℚ)).length + 4 < 2 ^ 32 ∧
    4 ≤ (allPoints
      (Field.mk (Point.mk (9 / 2 : ℚ) 0) (Point.mk (9 / 2) (-3)) (Point.mk (9 / 2) 3))
      []).length :=
  ⟨by decide, (getAllTriangles_loop_bounds
    (Field.mk (Point.mk (9 / 2 : ℚ) 0) (Point.mk (9 / 2) (-3)) (Point.mk (9 / 2) 3)) []
    (by decide)).1⟩

/-! ## Ranges of the angle accessors -/

/-- C21, evaluated at failing inputs: for the angle of `-1` radian, `toRadians` returns
`-1` and `toDegrees` returns a negative number; for the full turn, `toRadians` returns
`2π` and `toDegrees` returns `360` (`M_PI` being positive). The accessors return the stored
value without reducing it to `[0, 2π)` or `[0, 360)`. -/
theorem toRadians_toDegrees_failing {K : Type} [LinearOrderedField K] (G : Geom K)
    (hpi : 0 < G.pi) :
    (Angle.ofRadians (-1 : K)).toRadians = -1 ∧
    (Angle.ofRadians (-1 : K)).toDegrees G < 0 ∧
    (Angle.full G).toRadians = 2 * G.pi ∧
    (Angle.full G).toDegrees G = 360 := by
  refine ⟨rfl, ?_, rfl, ?_⟩
  · unfold Angle.toDegrees Angle.ofRadians
    simp only
    have : (-1 : K) / G.pi < 0 := div_neg_of_neg_of_pos (by norm_num) hpi
    linarith
  · unfold Angle.toDegrees Angle.full
    simp only
    have hne : G.pi ≠ 0 := ne_of_gt hpi
    field_simp
    ring

/-- Witness for the evaluation of C21, with `355/113` for `M_PI`. -/
theorem toRadians_toDegrees_failing_witness :
    (0 : ℚ) < (Geom.mk Rat.sqrt (355 / 113) fun _ _ _ => Angle.mk 0).pi ∧
    (Angle.ofRadians (-1 : ℚ)).toRadians = -1 ∧
    (Angle.ofRadians (-1 : ℚ)).toDegrees
      (Geom.mk Rat.sqrt (355 / 113) fun _ _ _ => Angle.mk 0) < 0 :=
  have hpi : (0 : ℚ) < (Geom.mk Rat.sqrt (355 / 113) fun _ _ _ => Angle.mk 0).pi := by
    show (0 : ℚ) < 355 / 113
    norm_num
  ⟨hpi,
    (toRadians_toDegrees_failing (Geom.mk Rat.sqrt (355 / 113) fun _ _ _ => Angle.mk 0)
      hpi).1,
    (toRadians_toDegrees_failing (Geom.mk Rat.sqrt (355 / 113) fun _ _ _ => Angle.mk 0)
      hpi).2.1⟩

/-! ## `angleMod` at the ends of its range -/

theorem angleMod_neg_pi {K : Type} [LinearOrderedField K] [FloorRing K] (G : Geom K)
    (hpi : 0 < G.pi) : (Angle.mk (-G.pi)).angleMod G = Angle.mk G.pi := by
  unfold Angle.angleMod Angle.remainder Angle.ofRadians Angle.toRadians Angle.full
  simp only
  have hq : -G.pi / (2 * G.pi) = -(1 / 2) := by
    field_simp
    ring
  rw [hq, if_neg (by norm_num : ¬ (-(1 / 2) : K) ≥ 0)]
  have hc : castLong (-(1 / 2) - 1 / 2 : K) = -1 := by
    unfold castLong
    rw [if_neg (by norm_num : ¬ (0 : K) ≤ -(1 / 2) - 1 / 2), Int.ceil_eq_iff]
    constructor <;> norm_num
  rw [hc]
  congr 1
  push_cast
  ring

theorem angleMod_pi {K : Type} [LinearOrderedField K] [FloorRing K] (G : Geom K)
    (hpi : 0 < G.pi) : (Angle.mk G.pi).angleMod G = Angle.mk (-G.pi) := by
  unfold Angle.angleMod Angle.remainder Angle.ofRadians Angle.toRadians Angle.full
  simp only
  have hq : G.pi / (2 * G.pi) = 1 / 2 := by
    field_simp
    ring
  rw [hq, if_pos (by norm_num : (1 / 2 : K) ≥ 0)]
  have hc : castLong (1 / 2 + 1 / 2 : K) = 1 := by
    unfold castLong
    rw [if_pos (by norm_num : (0 : K) ≤ 1 / 2 + 1 / 2), Int.floor_eq_iff]
    constructor <;> norm_num
  rw [hc]
  congr 1
  push_cast
  ring

/-- C27, counterexample: with `355/113` for `M_PI`, the angle `-π` is taken by `angleMod`
to `π`, and `π` is taken by `angleMod` to `-π`: applying `angleMod` twice does not give
the radian value of applying it once. -/
theorem angleMod_not_idempotent_counterexample :
    (Angle.mk (-(355 / 113) : ℚ)).angleMod
        (Geom.mk Rat.sqrt (355 / 113) fun _ _ _ => Angle.mk 0) = Angle.mk (355 / 113) ∧
    ((Angle.mk (-(355 / 113) : ℚ)).angleMod
        (Geom.mk Rat.sqrt (355 / 113) fun _ _ _ => Angle.mk 0)).angleMod
        (Geom.mk Rat.sqrt (355 / 113) fun _ _ _ => Angle.mk 0) = Angle.mk (-(355 / 113)) ∧
    (((Angle.mk (-(355 / 113) : ℚ)).angleMod
        (Geom.mk Rat.sqrt (355 / 113) fun _ _ _ => Angle.mk 0)).angleMod
        (Geom.mk Rat.sqrt (355 / 113) fun _ _ _ => Angle.mk 0)).toRadians ≠
      ((Angle.mk (-(355 / 113) : ℚ)).angleMod
        (Geom.mk Rat.sqrt (355 / 113) fun _ _ _ => Angle.mk 0)).toRadians := by
  have hpi : (0 : ℚ) < (Geom.mk Rat.sqrt (355 / 113) fun _ _ _ => Angle.mk 0).pi := by
    show (0 : ℚ) < 355 / 113
    norm_num
  have h1 : (Angle.mk (-(355 / 113) : ℚ)).angleMod
      (Geom.mk Rat.sqrt (355 / 113) fun _ _ _ => Angle.mk 0) = Angle.mk (355 / 113) :=
    angleMod_neg_pi (Geom.mk Rat.sqrt (355 / 113) fun _ _ _ => Angle.mk 0) hpi
  have h2 : (Angle.mk (355 / 113 : ℚ)).angleMod
      (Geom.mk Rat.sqrt (355 / 113) fun _ _ _ => Angle.mk 0) = Angle.mk (-(355 / 113)) :=
    angleMod_pi (Geom.mk Rat.sqrt (355 / 113) fun _ _ _ => Angle.mk 0) hpi
  refine ⟨h1, ?_, ?_⟩
  · rw [h1, h2]
  · rw [h1, h2]
    show (-(355 / 113) : ℚ) ≠ 355 / 113
    norm_num

/-! ## The angle code in double precision -/

namespace Binary64

/-! ### Rounding -/

theorem ilog2_spec : ∀ (fuel n : Nat), 0 < n → n ≤ fuel →
    2 ^ ilog2 fuel n ≤ n ∧ n < 2 ^ (ilog2 fuel n + 1) := by
  intro fuel
  induction fuel with
  | zero =>
    intro n h0 h1
    omega
  | succ f ih =>
    intro n h0 h1
    unfold ilog2
    by_cases h2 : n < 2
    · rw [if_pos h2]
      have : n = 1 := by omega
      subst this
      norm_num
    · rw [if_neg h2]
      obtain ⟨ha, hb⟩ := ih (n / 2) (by omega) (by omega)
      rw [pow_succ] at hb ⊢
      rw [pow_succ]
      constructor <;> omega

/-- The binary exponent brackets a positive rational between two powers of two. -/
theorem binade_spec (a : ℚ) (ha : 0 < a) :
    (2 : ℚ) ^ binade a ≤ a ∧ a < (2 : ℚ) ^ (binade a + 1) := by
  have hnum : 0 < a.num := Rat.num_pos.mpr ha
  have hN : 0 < a.num.natAbs := Int.natAbs_pos.mpr hnum.ne'
  obtain ⟨n1, n2⟩ := ilog2_spec a.num.natAbs a.num.natAbs hN le_rfl
  obtain ⟨d1, d2⟩ := ilog2_spec a.den a.den a.den_pos le_rfl
  have hD : (0 : ℚ) < (a.den : ℚ) := by exact_mod_cast a.den_pos
  have hq : a = (a.num.natAbs : ℚ) / (a.den : ℚ) := by
    have h1 : ((a.num.natAbs : Int) : ℚ) = (a.num : ℚ) := by
      rw [Int.natAbs_of_nonneg hnum.le]
    rw [← Int.cast_natCast, h1, Rat.num_div_den]
  have n1q : (2 : ℚ) ^ (ilog2 a.num.natAbs a.num.natAbs) ≤ (a.num.natAbs : ℚ) := by
    exact_mod_cast n1
  have n2q : (a.num.natAbs : ℚ) < (2 : ℚ) ^ (ilog2 a.num.natAbs a.num.natAbs + 1) := by
    exact_mod_cast n2
  have d1q : (2 : ℚ) ^ (ilog2 a.den a.den) ≤ (a.den : ℚ) := by
    exact_mod_cast d1
  have d2q : (a.den : ℚ) < (2 : ℚ) ^ (ilog2 a.den a.den + 1) := by
    exact_mod_cast d2
  unfold binade
  generalize ilog2 a.num.natAbs a.num.natAbs = ln at *
  generalize ilog2 a.den a.den = ld at *
  have hpn : (0 : ℚ) < (2 : ℚ) ^ ln := by positivity
  have hpd : (0 : ℚ) < (2 : ℚ) ^ ld := by positivity
  have e0 : (2 : ℚ) ^ ((ln : Int) - (ld : Int)) = (2 : ℚ) ^ ln / (2 : ℚ) ^ ld := by
    rw [zpow_sub₀ (by norm_num : (2 : ℚ) ≠ 0), zpow_natCast, zpow_natCast]
  have e1 : (2 : ℚ) ^ ((ln : Int) - (ld : Int) + 1) = 2 * ((2 : ℚ) ^ ln / (2 : ℚ) ^ ld) := by
    rw [zpow_add_one₀ (by norm_num : (2 : ℚ) ≠ 0), e0]
    ring
  have e2 : (2 : ℚ) ^ ((ln : Int) - (ld : Int) - 1) = ((2 : ℚ) ^ ln / (2 : ℚ) ^ ld) / 2 := by
    rw [zpow_sub_one₀ (by norm_num : (2 : ℚ) ≠ 0), e0]
    rfl
  have hc : (0 : ℚ) < (2 : ℚ) ^ ln / (2 : ℚ) ^ ld := div_pos hpn hpd
  have hcd : (2 : ℚ) ^ ln / (2 : ℚ) ^ ld * (2 : ℚ) ^ ld = (2 : ℚ) ^ ln :=
    div_mul_cancel₀ _ hpd.ne'
  by_cases hk : (2 : ℚ) ^ ((ln : Int) - (ld : Int)) ≤ a
  · rw [if_pos hk]
    refine ⟨hk, ?_⟩
    rw [e1, hq, div_lt_iff₀ hD]
    have h1 : (2 : ℚ) ^ ln / (2 : ℚ) ^ ld * (2 : ℚ) ^ ld ≤
        (2 : ℚ) ^ ln / (2 : ℚ) ^ ld * (a.den : ℚ) :=
      mul_le_mul_of_nonneg_left d1q hc.le
    rw [pow_succ] at n2q
    linarith
  · rw [if_neg hk]
    constructor
    · rw [e2, hq, le_div_iff₀ hD]
      have h1 : (2 : ℚ) ^ ln / (2 : ℚ) ^ ld * (a.den : ℚ) ≤
          (2 : ℚ) ^ ln / (2 : ℚ) ^ ld * (2 : ℚ) ^ (ld + 1) :=
        mul_le_mul_of_nonneg_left d2q.le hc.le
      rw [pow_succ, ← mul_assoc, hcd] at h1
      linarith
    · have : (ln : Int) - (ld : Int) - 1 + 1 = (ln : Int) - (ld : Int) := by ring
      rw [this]
      exact not_le.mp hk

theorem two_zpow_pos (k : Int) : (0 : ℚ) < (2 : ℚ) ^ k :=
  zpow_pos (by norm_num) k

theorem ulp_pos (a : ℚ) : 0 < ulp a :=
  two_zpow_pos _

theorem roundInt_sub_le (m : ℚ) : |(roundInt m : ℚ) - m| ≤ 1 / 2 := by
  have h1 := Int.floor_le m
  have h2 := Int.lt_floor_add_one m
  unfold roundInt
  split_ifs with c1 c2 c3
  · rw [abs_le]
    constructor <;> linarith
  · push_cast
    rw [abs_le]
    constructor <;> linarith
  · rw [abs_le]
    constructor <;> linarith
  · push_cast
    rw [abs_le]
    constructor <;> linarith

theorem roundInt_nonneg (m : ℚ) (h : 0 ≤ m) : 0 ≤ roundInt m := by
  have h1 : 0 ≤ Int.floor m := Int.floor_nonneg.mpr h
  unfold roundInt
  split_ifs <;> omega

theorem roundInt_intCast (k : Int) : roundInt (k : ℚ) = k := by
  unfold roundInt
  rw [Int.floor_intCast, sub_self, if_pos (by norm_num)]

theorem roundMagnitude_nonneg (a : ℚ) (h : 0 ≤ a) : 0 ≤ roundMagnitude a := by
  unfold roundMagnitude
  have h1 : 0 ≤ roundInt (a / ulp a) := roundInt_nonneg _ (div_nonneg h (ulp_pos a).le)
  have h2 : (0 : ℚ) ≤ (roundInt (a / ulp a) : ℚ) := by exact_mod_cast h1
  exact mul_nonneg h2 (ulp_pos a).le

theorem ulp_half_le (a : ℚ) (ha : 0 < a) :
    ulp a / 2 ≤ a * (2 : ℚ) ^ (-53 : Int) + (2 : ℚ) ^ (-1075 : Int) := by
  have hb := (binade_spec a ha).1
  have h2 : (2 : ℚ) ≠ 0 := by norm_num
  unfold ulp
  rcases le_total (binade a) (-1022) with h | h
  · rw [max_eq_right h]
    have e : (2 : ℚ) ^ ((-1022 : Int) - 52) / 2 = (2 : ℚ) ^ (-1075 : Int) := by
      rw [show (-1022 : Int) - 52 = -1075 + 1 by norm_num, zpow_add_one₀ h2,
        mul_div_assoc, div_self h2, mul_one]
    rw [e]
    have : 0 ≤ a * (2 : ℚ) ^ (-53 : Int) := mul_nonneg ha.le (two_zpow_pos _).le
    linarith
  · rw [max_eq_left h]
    have e : (2 : ℚ) ^ (binade a - 52) / 2 = (2 : ℚ) ^ binade a * (2 : ℚ) ^ (-53 : Int) := by
      rw [show binade a - 52 = binade a + -53 + 1 by ring, zpow_add_one₀ h2, zpow_add₀ h2,
        mul_div_assoc, div_self h2, mul_one]
    rw [e]
    have h3 : (2 : ℚ) ^ binade a * (2 : ℚ) ^ (-53 : Int) ≤ a * (2 : ℚ) ^ (-53 : Int) :=
      mul_le_mul_of_nonneg_right hb (two_zpow_pos _).le
    have := (two_zpow_pos (-1075)).le
    linarith

theorem roundMagnitude_error (a : ℚ) (ha : 0 < a) :
    |roundMagnitude a - a| ≤ a * (2 : ℚ) ^ (-53 : Int) + (2 : ℚ) ^ (-1075 : Int) := by
  have hu := ulp_pos a
  have h1 := roundInt_sub_le (a / ulp a)
  have e : roundMagnitude a - a = ((roundInt (a / ulp a) : ℚ) - a / ulp a) * ulp a := by
    unfold roundMagnitude
    field_simp
  rw [e, abs_mul, abs_of_pos hu]
  have h2 : |(roundInt (a / ulp a) : ℚ) - a / ulp a| * ulp a ≤ 1 / 2 * ulp a :=
    mul_le_mul_of_nonneg_right h1 hu.le
  have h3 := ulp_half_le a ha
  linarith

theorem roundNearestEven_zero : roundNearestEven 0 = 0 := by
  unfold roundNearestEven
  rw [if_pos rfl]

theorem roundNearestEven_of_pos (q : ℚ) (h : 0 < q) :
    roundNearestEven q = roundMagnitude q := by
  unfold roundNearestEven
  rw [if_neg h.ne', if_neg (not_lt.mpr h.le)]

theorem roundNearestEven_of_neg (q : ℚ) (h : q < 0) :
    roundNearestEven q = -roundMagnitude (-q) := by
  unfold roundNearestEven
  rw [if_neg h.ne, if_pos h]

/-- Rounding commutes with negation. -/
theorem roundNearestEven_neg (q : ℚ) : roundNearestEven (-q) = -roundNearestEven q := by
  rcases lt_trichotomy q 0 with h | h | h
  · rw [roundNearestEven_of_neg q h, roundNearestEven_of_pos (-q) (by linarith), neg_neg]
  · rw [h, neg_zero, roundNearestEven_zero, neg_zero]
  · rw [roundNearestEven_of_pos q h, roundNearestEven_of_neg (-q) (by linarith), neg_neg]

theorem roundNearestEven_nonneg (q : ℚ) (h : 0 ≤ q) : 0 ≤ roundNearestEven q := by
  rcases eq_or_lt_of_le h with h0 | h0
  · rw [← h0, roundNearestEven_zero]
  · rw [roundNearestEven_of_pos q h0]
    exact roundMagnitude_nonneg q h

theorem roundNearestEven_nonpos (q : ℚ) (h : q ≤ 0) : roundNearestEven q ≤ 0 := by
  have h1 := roundNearestEven_nonneg (-q) (by linarith)
  rw [roundNearestEven_neg] at h1
  linarith

/-- The rounding error is at most half a unit in the last place: `2 ^ (-53)` of the
magnitude, or `2 ^ (-1075)` among the subnormal numbers. -/
theorem roundNearestEven_error (q : ℚ) :
    |roundNearestEven q - q| ≤ |q| * (2 : ℚ) ^ (-53 : Int) + (2 : ℚ) ^ (-1075 : Int) := by
  rcases lt_trichotomy q 0 with h | h | h
  · rw [roundNearestEven_of_neg q h, abs_of_neg h]
    have := roundMagnitude_error (-q) (by linarith)
    rw [show -roundMagnitude (-q) - q = -(roundMagnitude (-q) - -q) by ring, abs_neg]
    exact this
  · rw [h, roundNearestEven_zero, sub_self, abs_zero, zero_mul, zero_add]
    exact (two_zpow_pos _).le
  · rw [roundNearestEven_of_pos q h, abs_of_pos h]
    exact roundMagnitude_error q h

theorem roundMagnitude_of_int (b : ℚ) (k : Int) (h : b / ulp b = (k : ℚ)) :
    roundMagnitude b = b := by
  unfold roundMagnitude
  rw [h, roundInt_intCast, ← h]
  exact div_mul_cancel₀ b (ulp_pos b).ne'

theorem roundMagnitude_fixed (n e : Int) (hn0 : 0 < n) (hn : n ≤ 2 ^ 53)
    (he : -1022 ≤ e) :
    roundMagnitude ((n : ℚ) * (2 : ℚ) ^ (e - 52)) = (n : ℚ) * (2 : ℚ) ^ (e - 52) := by
  have h2 : (2 : ℚ) ≠ 0 := by norm_num
  have h12 : (1 : ℚ) < 2 := by norm_num
  have hnq : (0 : ℚ) < (n : ℚ) := by exact_mod_cast hn0
  have hnq2 : (n : ℚ) ≤ (2 : ℚ) ^ (53 : Int) := by
    have : (n : ℚ) ≤ ((2 ^ 53 : Int) : ℚ) := by exact_mod_cast hn
    rw [show (53 : Int) = ((53 : Nat) : Int) by rfl, zpow_natCast]
    push_cast at this
    exact this
  have hb : (0 : ℚ) < (n : ℚ) * (2 : ℚ) ^ (e - 52) := mul_pos hnq (two_zpow_pos _)
  obtain ⟨b1, b2⟩ := binade_spec _ hb
  have hle : (n : ℚ) * (2 : ℚ) ^ (e - 52) ≤ (2 : ℚ) ^ (e + 1) := by
    have : (n : ℚ) * (2 : ℚ) ^ (e - 52) ≤ (2 : ℚ) ^ (53 : Int) * (2 : ℚ) ^ (e - 52) :=
      mul_le_mul_of_nonneg_right hnq2 (two_zpow_pos _).le
    rw [← zpow_add₀ h2, show (53 : Int) + (e - 52) = e + 1 by ring] at this
    exact this
  rcases le_or_lt (binade ((n : ℚ) * (2 : ℚ) ^ (e - 52))) e with hB | hB
  · have hE : max (binade ((n : ℚ) * (2 : ℚ) ^ (e - 52))) (-1022) ≤ e := max_le hB he
    apply roundMagnitude_of_int _
      (n * 2 ^ (e - max (binade ((n : ℚ) * (2 : ℚ) ^ (e - 52))) (-1022)).toNat)
    unfold ulp
    generalize max (binade ((n : ℚ) * (2 : ℚ) ^ (e - 52))) (-1022) = E at hE
    push_cast
    rw [← zpow_natCast, Int.toNat_of_nonneg (by omega), mul_div_assoc, ← zpow_sub₀ h2,
      show e - 52 - (E - 52) = e - E by ring]
  · have hB1 : (2 : ℚ) ^ (e + 1) ≤ (2 : ℚ) ^ binade ((n : ℚ) * (2 : ℚ) ^ (e - 52)) :=
      zpow_le_zpow_right₀ h12.le (by omega)
    have hbe : (n : ℚ) * (2 : ℚ) ^ (e - 52) = (2 : ℚ) ^ (e + 1) :=
      le_antisymm hle (le_trans hB1 b1)
    have hB2 : binade ((n : ℚ) * (2 : ℚ) ^ (e - 52)) ≤ e + 1 := by
      have : (2 : ℚ) ^ binade ((n : ℚ) * (2 : ℚ) ^ (e - 52)) ≤ (2 : ℚ) ^ (e + 1) :=
        le_trans b1 hle
      exact (zpow_le_zpow_iff_right₀ h12).mp this
    have hB3 : binade ((n : ℚ) * (2 : ℚ) ^ (e - 52)) = e + 1 := by omega
    apply roundMagnitude_of_int _ (2 ^ 52)
    unfold ulp
    rw [hB3, max_eq_left (by omega), hbe, ← zpow_sub₀ h2,
      show e + 1 - (e + 1 - 52) = ((52 : Nat) : Int) by ring, zpow_natCast]
    push_cast
    rfl

theorem roundInt_div_ulp_le (a : ℚ) (ha : 0 < a) : roundInt (a / ulp a) ≤ 2 ^ 53 := by
  have h2 : (2 : ℚ) ≠ 0 := by norm_num
  have h12 : (1 : ℚ) < 2 := by norm_num
  obtain ⟨-, b2⟩ := binade_spec a ha
  have hu := ulp_pos a
  have h1 : a / ulp a < (2 : ℚ) ^ (53 : Int) := by
    rw [div_lt_iff₀ hu]
    unfold ulp
    rw [← zpow_add₀ h2, show (53 : Int) + (max (binade a) (-1022) - 52) =
      max (binade a) (-1022) + 1 by ring]
    exact lt_of_lt_of_le b2 (zpow_le_zpow_right₀ h12.le (by
      have := le_max_left (binade a) (-1022)
      omega))
  have h3 := roundInt_sub_le (a / ulp a)
  rw [abs_le] at h3
  have h4 : (roundInt (a / ulp a) : ℚ) < ((2 ^ 53 + 1 : Int) : ℚ) := by
    rw [show (53 : Int) = ((53 : Nat) : Int) by rfl, zpow_natCast] at h1
    push_cast
    linarith [h3.2]
  have h5 : roundInt (a / ulp a) < 2 ^ 53 + 1 := by exact_mod_cast h4
  omega

theorem roundMagnitude_idem (a : ℚ) (ha : 0 < a) :
    roundNearestEven (roundMagnitude a) = roundMagnitude a := by
  have h0 := roundInt_nonneg (a / ulp a) (div_nonneg ha.le (ulp_pos a).le)
  rcases eq_or_lt_of_le h0 with h | h
  · have : roundMagnitude a = 0 := by
      unfold roundMagnitude
      rw [← h]
      push_cast
      ring
    rw [this, roundNearestEven_zero]
  · have hpos : 0 < roundMagnitude a := by
      unfold roundMagnitude
      have : (0 : ℚ) < (roundInt (a / ulp a) : ℚ) := by exact_mod_cast h
      exact mul_pos this (ulp_pos a)
    rw [roundNearestEven_of_pos _ hpos]
    exact roundMagnitude_fixed (roundInt (a / ulp a)) (max (binade a) (-1022)) h
      (roundInt_div_ulp_le a ha) (le_max_right _ _)

/-- A rounded value is a double: rounding it again does not change it. -/
theorem roundNearestEven_idem (q : ℚ) :
    roundNearestEven (roundNearestEven q) = roundNearestEven q := by
  rcases lt_trichotomy q 0 with h | h | h
  · rw [roundNearestEven_of_neg q h, roundNearestEven_neg,
      roundMagnitude_idem (-q) (by linarith)]
  · rw [h, roundNearestEven_zero, roundNearestEven_zero]
  · rw [roundNearestEven_of_pos q h, roundMagnitude_idem q h]

theorem full_toRadians : full.toRadians = 884279719003555 / 140737488355328 := by
  decide!

theorem roundNearestEven_error_small (v : ℚ) (hv : |v| ≤ 1) :
    |roundNearestEven v - v| ≤ 1 / 2 ^ 52 := by
  have h := roundNearestEven_error v
  have h12 : (1 : ℚ) ≤ 2 := by norm_num
  have h1 : (2 : ℚ) ^ (-1075 : Int) ≤ (2 : ℚ) ^ (-53 : Int) :=
    zpow_le_zpow_right₀ h12 (by norm_num)
  have h2 : |v| * (2 : ℚ) ^ (-53 : Int) ≤ 1 * (2 : ℚ) ^ (-53 : Int) :=
    mul_le_mul_of_nonneg_right hv (two_zpow_pos _).le
  have h3 : (2 : ℚ) ^ (-53 : Int) + (2 : ℚ) ^ (-53 : Int) = 1 / 2 ^ 52 := by
    rw [show (-53 : Int) = -((53 : Nat) : Int) by rfl, zpow_neg, zpow_natCast]
    norm_num
  generalize (2 : ℚ) ^ (-53 : Int) = c at h h1 h2 h3
  generalize (2 : ℚ) ^ (-1075 : Int) = c2 at h h1
  rw [one_mul] at h2
  linarith

theorem castLong_of_abs_lt_one (z : ℚ) (h1 : -1 < z) (h2 : z < 1) : castLong z = some 0 := by
  unfold castLong
  rw [if_pos ⟨by linarith, by linarith⟩]
  congr 1
  by_cases h : 0 ≤ z
  · rw [if_pos h, Int.floor_eq_iff]
    constructor <;> push_cast <;> linarith
  · rw [if_neg h, Int.ceil_eq_iff]
    constructor <;> push_cast <;> linarith

theorem ofRadians_toRadians_eq (r : Angle ℚ) : Angle.ofRadians r.toRadians = r := by
  cases r
  rfl

/-- The result of `remainder` is a double. -/
theorem remainder_isDouble (a d r : Angle ℚ) (h : remainder a d = some r) :
    roundNearestEven r.toRadians = r.toRadians := by
  unfold remainder at h
  by_cases hd : d.toRadians = 0
  · rw [if_pos hd] at h
    cases h
  rw [if_neg hd, Option.map_eq_some'] at h
  obtain ⟨n, -, hn⟩ := h
  rw [← hn]
  exact roundNearestEven_idem _

/-- A double whose quotient by a positive divisor is below one half by a margin is
returned unchanged by `remainder`: the `long` of the rounded quotient is `0`. -/
theorem remainder_fixes_small (r d : Angle ℚ) (hd : 0 < d.toRadians)
    (hr : roundNearestEven r.toRadians = r.toRadians)
    (hs : |r.toRadians| / d.toRadians ≤ 1 / 2 - 1 / 2 ^ 50) :
    remainder r d = some r := by
  have hv : |r.toRadians / d.toRadians| ≤ 1 / 2 - 1 / 2 ^ 50 := by
    rw [abs_div, abs_of_pos hd]
    exact hs
  have e1 := roundNearestEven_error_small (r.toRadians / d.toRadians)
    (le_trans hv (by norm_num))
  rw [abs_le] at hv e1
  have hz : castLong (if roundNearestEven (r.toRadians / d.toRadians) ≥ 0
        then roundNearestEven (roundNearestEven (r.toRadians / d.toRadians) + 1 / 2)
        else roundNearestEven
          (roundNearestEven (r.toRadians / d.toRadians) - 1 / 2)) = some 0 := by
    by_cases hq : roundNearestEven (r.toRadians / d.toRadians) ≥ 0
    · rw [if_pos hq]
      have e2 := roundNearestEven_error_small
        (roundNearestEven (r.toRadians / d.toRadians) + 1 / 2) (by
          rw [abs_le]
          constructor
          · linarith
          · norm_num at hv e1 ⊢
            linarith)
      rw [abs_le] at e2
      have n0 := roundNearestEven_nonneg
        (roundNearestEven (r.toRadians / d.toRadians) + 1 / 2) (by linarith)
      apply castLong_of_abs_lt_one
      · linarith
      · norm_num at hv e1 e2 ⊢
        linarith
    · rw [if_neg hq]
      have hq2 : roundNearestEven (r.toRadians / d.toRadians) < 0 := not_le.mp hq
      have e2 := roundNearestEven_error_small
        (roundNearestEven (r.toRadians / d.toRadians) - 1 / 2) (by
          rw [abs_le]
          constructor
          · norm_num at hv e1 ⊢
            linarith
          · linarith)
      rw [abs_le] at e2
      have n0 := roundNearestEven_nonpos
        (roundNearestEven (r.toRadians / d.toRadians) - 1 / 2) (by linarith)
      apply castLong_of_abs_lt_one
      · norm_num at hv e1 e2 ⊢
        linarith
      · linarith
  unfold remainder
  rw [if_neg hd.ne', hz]
  show some (Angle.ofRadians (roundNearestEven (r.toRadians -
    roundNearestEven (castDouble 0 * d.toRadians)))) = some r
  unfold castDouble
  rw [Int.cast_zero, roundNearestEven_zero, zero_mul, roundNearestEven_zero, sub_zero, hr,
    ofRadians_toRadians_eq]

/-- A double of magnitude at most `3.14159` is returned unchanged by `angleMod`. -/
theorem angleMod_fixes_small (r : Angle ℚ) (hr : roundNearestEven r.toRadians = r.toRadians)
    (hs : |r.toRadians| ≤ 314159 / 100000) : angleMod r = some r := by
  unfold angleMod
  apply remainder_fixes_small r full _ hr
  · rw [full_toRadians, div_le_iff₀ (by norm_num)]
    norm_num
    linarith
  · rw [full_toRadians]
    norm_num

theorem not_full_multiple (k : Int) :
    (-4 : ℚ) ≠ 10 ^ 16 - (k : ℚ) * full.toRadians := by
  intro hk
  rw [full_toRadians] at hk
  have h1 : (1591549430918954 : ℚ) < (k : ℚ) := by
    norm_num at hk ⊢
    linarith
  have h2 : (k : ℚ) < 1591549430918955 := by
    norm_num at hk ⊢
    linarith
  have h3 : (1591549430918954 : Int) < k := by exact_mod_cast h1
  have h4 : k < (1591549430918955 : Int) := by exact_mod_cast h2
  omega

/-- C19, evaluated at a failing input: the angle of `1e16` radians is a `double`, and its
quotient by `2π` is rounded to `1591549430918953.5`; adding `0.5` and converting gives the
`long` `1591549430918954`, well inside the range of `long`, and its product with `2π` is
rounded to `1e16 + 4`. So `angleMod` and `clamp` both return `-4` radians, which lies
below `-M_PI` and below `-π`: the result is outside `[-π, π]`. Nor does it differ from
`1e16` by an integer multiple of the `double` `2π`. -/
theorem angleMod_clamp_double_failing :
    roundNearestEven (10 ^ 16) = 10 ^ 16 ∧
    roundNearestEven (10 ^ 16 / full.toRadians) = 3183098861837907 / 2 ∧
    castLong (roundNearestEven (3183098861837907 / 2 + 1 / 2)) = some 1591549430918954 ∧
    roundNearestEven (castDouble 1591549430918954 * full.toRadians) = 10 ^ 16 + 4 ∧
    angleMod (Angle.ofRadians (10 ^ 16)) = some (Angle.ofRadians (-4)) ∧
    clamp (Angle.ofRadians (10 ^ 16)) = some (Angle.ofRadians (-4)) ∧
    (-4 : ℚ) < -M_PI ∧
    (-4 : ℝ) < -Real.pi ∧
    ∀ k : Int, (-4 : ℚ) ≠ 10 ^ 16 - (k : ℚ) * full.toRadians :=
  ⟨by decide!, by decide!, by decide!, by decide!, by decide!, by decide!, by decide!,
    by linarith [Real.pi_lt_four], not_full_multiple⟩

/-- C22, evaluated at a failing input: for the angles of `1e16` and `0` radians the
difference is the `double` `1e16`, which `clamp` takes to `-4`, so `minDiff` returns
`4` radians, which lies above `M_PI` and above `π`: the result is outside `[0, π]`. It is
not the smallest rotation either: `1591549430918953` turns of the `double` `2π` leave a
difference below `4`. -/
theorem minDiff_double_failing :
    operatorSub (Angle.ofRadians (10 ^ 16)) (Angle.ofRadians 0) = Angle.ofRadians (10 ^ 16) ∧
    clamp (Angle.ofRadians (10 ^ 16)) = some (Angle.ofRadians (-4)) ∧
    minDiff (Angle.ofRadians (10 ^ 16)) (Angle.ofRadians 0) = some (Angle.ofRadians 4) ∧
    M_PI < 4 ∧
    Real.pi < 4 ∧
    |(10 : ℚ) ^ 16 - 0 - 1591549430918953 * full.toRadians| < 4 :=
  ⟨by decide!, by decide!, by decide!, by decide!, Real.pi_lt_four, by decide!⟩

/-! ### Equality up to full turns -/

/-- In `double`, `angleMod` takes `-M_PI` to `M_PI` and `M_PI` to `-M_PI`. -/
theorem angleMod_swaps_M_PI :
    M_PI = 884279719003555 / 281474976710656 ∧
    angleMod (Angle.ofRadians (-M_PI)) = some (Angle.ofRadians M_PI) ∧
    angleMod (Angle.ofRadians M_PI) = some (Angle.ofRadians (-M_PI)) :=
  ⟨by decide!, by decide!, by decide!⟩

/-- In `double`, `angleMod` takes the double just below `M_PI` to a value below `-M_PI`,
and that value back: the quotient by `2π` rounds to the double just below `0.5`, and its
sum with `0.5` rounds to `1`. -/
theorem angleMod_below_M_PI :
    roundNearestEven (7074237752028439 / 2251799813685248) =
      7074237752028439 / 2251799813685248 ∧
    (7074237752028439 / 2251799813685248 : ℚ) < M_PI ∧
    angleMod (Angle.ofRadians (7074237752028439 / 2251799813685248)) =
      some (Angle.ofRadians (-(7074237752028441 / 2251799813685248))) ∧
    -(7074237752028441 / 2251799813685248 : ℚ) < -M_PI ∧
    angleMod (Angle.ofRadians (-(7074237752028441 / 2251799813685248))) =
      some (Angle.ofRadians (7074237752028439 / 2251799813685248)) :=
  ⟨by decide!, by decide!, by decide!, by decide!, by decide!⟩

/-- C27, amended: in `double`, for every angle `x` whose `angleMod` is defined and has a
magnitude of at most `3.14159` radians, `x.angleMod().angleMod()` is defined and equals
`x.angleMod()`. -/
theorem angleMod_idempotent_double (x r : Angle ℚ) (hx : angleMod x = some r)
    (hr : |r.toRadians| ≤ 314159 / 100000) :
    (angleMod x).bind angleMod = angleMod x := by
  rw [hx]
  exact angleMod_fixes_small r (remainder_isDouble x full r hx) hr

/-- Witness for the amended C27: the angle of `7` radians, which `angleMod` takes to
`0.7168146928204138` radians. -/
theorem angleMod_idempotent_double_witness :
    angleMod (Angle.ofRadians 7) =
      some (Angle.ofRadians (100882699483741 / 140737488355328)) ∧
    |(Angle.ofRadians (100882699483741 / 140737488355328 : ℚ)).toRadians| ≤
      314159 / 100000 ∧
    (angleMod (Angle.ofRadians 7)).bind angleMod = angleMod (Angle.ofRadians 7) :=
  ⟨by decide!, by decide!, angleMod_idempotent_double (Angle.ofRadians 7)
    (Angle.ofRadians (100882699483741 / 140737488355328)) (by decide!) (by decide!)⟩

end Binary64

end Evaluation
